import Mathlib

/-!
Verification of the aiomongodel schema/validation/conversion core
(`aiomongodel/fields.py`, `aiomongodel/document.py`, `aiomongodel/utils.py`,
`aiomongodel/errors.py`) against its natural-language specification.

The Python code is shallowly embedded:
* Python runtime values that can appear in a document field are the type
  `MValue`; machine-level numeric types are modelled exactly
  (`int` as `Int`, `float` as `Rat` — NaN/Inf are outside the model,
  `decimal.Decimal` as a coefficient/exponent pair `c * 10 ^ e`,
  `bson.Decimal128` as such a pair restricted to the IEEE 754 decimal128
  range, `ObjectId` as its 24-character hex string).
* A field descriptor (`Field` instance) is `FieldInfo`; each concrete field
  class of `fields.py` is one constructor of `FieldKind`.  A document class
  body is a `Schema` (ordered field map, as an association list), and the
  process-wide set of document classes is an `Env` keyed by class name
  (`MValue.vdoc` instances name their class; both validation and conversion
  look the schema up in the same `Env`, as Python looks it up on the class).
* Exceptions are an explicit `Except PyExc` result; `ValidationError`'s
  recursive error value is `VError`.
* The per-field validator list built by the `__init__` chains is the list
  `buildValidators`; running it (`Field.validate`) is `runSteps`, where
  `StopValidation` is the `.stopS` outcome.
-/

namespace AioMongodel

/-- Python runtime values that can be held by a document field, passed to
`to_mongo` / `from_mongo` / `validate`, or stored in a `_data` map.

* `vdec c e` is `decimal.Decimal` with value `c * 10 ^ e`.
* `vdec128 c e` is `bson.Decimal128` with the same reading.
* `voidv h` is `bson.ObjectId` whose 24-character hex form is `h`.
* `vdt t` is `datetime.datetime`, opaque except for equality.
* `vdoc cls data` is an instance of document class `cls` whose `_data`
  ordered dict is `data`.
* `vson data` is a `bson.SON` / plain `dict` with ordered items `data`.
* `vfuncReturns v` / `vfuncRaisesTypeError` / `vfuncRaisesOther` are
  zero-argument callables classified by what calling them does (used for
  `default` values). -/
inductive MValue where
  | vnone
  | vbool (b : Bool)
  | vint (n : Int)
  | vfloat (q : Rat)
  | vstr (s : String)
  | vdec (c : Int) (e : Int)
  | vdec128 (c : Int) (e : Int)
  | voidv (hex : String)
  | vdt (t : Int)
  | vlist (xs : List MValue)
  | vdoc (cls : String) (data : List (String × MValue))
  | vson (data : List (String × MValue))
  | vfuncReturns (v : MValue)
  | vfuncRaisesTypeError
  | vfuncRaisesOther

/-- Key of one entry of a branch `ValidationError.error` dict: Python uses
field names (`str`) for document branches and indexes (`int`) for list
branches. -/
inductive EKey where
  | ix (n : Nat)
  | fk (s : String)
deriving DecidableEq

/-- `errors.ValidationError`'s payload: either a leaf message template with
an optional `constraint` value for interpolation, or a dict of sub-errors
(`errors.py` lines 49-59: `self.error` is a string or a dict, and
`self.constraint` is `_Empty` or a value). -/
inductive VError where
  | leaf (msg : String) (constraint : Option MValue)
  | branch (entries : List (EKey × VError))

/-- A Python exception as surfaced by the embedded operations.
`vErr` is `errors.ValidationError`; the others are builtin exception
classes that the source raises or propagates. -/
inductive PyExc where
  | vErr (e : VError)
  | impErr (msg : String)
  | tyErr (msg : String)
  | attrErr (msg : String)
  | otherExc (msg : String)

/-- Association-list lookup with Python-dict semantics for reads
(`d[k]` returns the value for `k`; `none` models `KeyError`). -/
def alookup {κ α : Type} [DecidableEq κ] : List (κ × α) → κ → Option α
  | [], _ => none
  | (k, v) :: rest, key => if k = key then some v else alookup rest key

/-- Python-dict assignment `d[k] = v`: an existing key keeps its position
and gets the new value, a new key is appended. -/
def dictInsert {κ α : Type} [DecidableEq κ] : List (κ × α) → κ → α → List (κ × α)
  | [], k, v => [(k, v)]
  | (k', v') :: rest, k, v =>
    if k' = k then (k, v) :: rest else (k', v') :: dictInsert rest k v

theorem alookup_sizeOf_lt {κ α : Type} [DecidableEq κ] [SizeOf κ] [SizeOf α]
    {l : List (κ × α)}
    {k : κ} {v : α} (h : alookup l k = some v) : sizeOf v < sizeOf l := by
  induction l with
  | nil => simp [alookup] at h
  | cons hd tl ih =>
    simp only [alookup] at h
    split at h
    · cases h
      cases hd
      simp
      omega
    · have := ih h
      cases hd
      simp at this ⊢
      omega

theorem alookup_mem_keys {κ α : Type} [DecidableEq κ] {l : List (κ × α)}
    {k : κ} {v : α} (h : alookup l k = some v) : k ∈ l.map Prod.fst := by
  induction l with
  | nil => simp [alookup] at h
  | cons hd tl ih =>
    cases hd with
    | mk k' v' =>
      simp only [alookup] at h
      by_cases heq : k' = k
      · subst heq
        simp
      · rw [if_neg heq] at h
        simp only [List.map_cons, List.mem_cons]
        exact Or.inr (ih h)

theorem alookup_dictInsert_self {κ α : Type} [DecidableEq κ]
    (l : List (κ × α)) (k : κ) (v : α) :
    alookup (dictInsert l k v) k = some v := by
  induction l with
  | nil => simp [dictInsert, alookup]
  | cons hd tl ih =>
    cases hd with
    | mk k' v' =>
      by_cases heq : k' = k
      · subst heq
        simp [dictInsert, alookup]
      · simp [dictInsert, alookup, heq, ih]

theorem alookup_dictInsert_ne {κ α : Type} [DecidableEq κ]
    (l : List (κ × α)) (k k2 : κ) (v : α) (hne : ¬ (k = k2)) :
    alookup (dictInsert l k v) k2 = alookup l k2 := by
  induction l with
  | nil => simp [dictInsert, alookup, hne]
  | cons hd tl ih =>
    cases hd with
    | mk k' v' =>
      by_cases heq : k' = k
      · subst heq
        simp [dictInsert, alookup, hne]
      · simp [dictInsert, alookup, heq, ih]

/-- A compiled regular expression, as stored on `StrField.regex`.  The
`re` module is an external collaborator; the shapes used by the claims are
modelled: `startsWithPat p` is the pattern `"^" ++ p` (so `re.match`
succeeds exactly on strings starting with `p`), and `emailPat` is
`EmailField.EMAIL_REGEX` (its acceptance is modelled as containing `"@"`,
which is all the claims need of it). -/
inductive RegexSpec where
  | startsWithPat (p : String)
  | emailPat
deriving DecidableEq

/-- `regex.pattern` attribute (used as the `constraint` of the regex
validation error). -/
def RegexSpec.pattern : RegexSpec → String
  | .startsWithPat p => "^" ++ p
  | .emailPat => "^[a-zA-Z0-9_.+-]+@[a-zA-Z0-9-]+\\.[a-zA-Z0-9-.]+$"

/-- Is the first character list a prefix of the second. -/
def strPrefixMatch : List Char → List Char → Bool
  | [], _ => true
  | _ :: _, [] => false
  | p :: ps, c :: cs => (p = c) && strPrefixMatch ps cs

/-- `regex.match(value)` truth value. -/
def RegexSpec.rmatch : RegexSpec → String → Bool
  | .startsWithPat p, s => strPrefixMatch p.data s.data
  | .emailPat, s => s.data.contains '@' 

mutual
/-- The concrete field classes of `fields.py`, with the constructor options
each of them stores:

* `anyK` — `AnyField`
* `strK` — `StrField` (`regex`, `allow_blank`, `min_length`, `max_length`);
  `EmailField` is a `StrField` with `regex = emailPat`
* `boolK` — `BoolField`
* `intK`, `floatK`, `decK` — `IntField` / `FloatField` / `DecimalField`,
  each with the `NumberField` options `gte`, `lte`, `gt`, `lt` at the
  field's own numeric type (`decK` bounds are Decimal coefficient/exponent
  pairs)
* `dtK` — `DateTimeField`; `oidK` — `ObjectIdField`
* `embK cls` — `EmbDocField` whose (resolved) `document_class` is `cls`
* `listK item minL maxL` — `ListField` over `item_field = item`
* `refK cls idField` — `RefField` whose (resolved) `document_class` is
  `cls` and whose target's `_id` field is `idField`

Lazy string references are modelled separately (see `DCState` below);
here `cls` is a resolved class name. -/
inductive FieldKind where
  | anyK
  | strK (regex : Option RegexSpec) (allowBlank : Bool)
      (minLength : Option Nat) (maxLength : Option Nat)
  | boolK
  | intK (gte lte gt lt : Option Int)
  | floatK (gte lte gt lt : Option Rat)
  | decK (gte lte gt lt : Option (Int × Int))
  | dtK
  | oidK
  | embK (cls : String)
  | listK (item : FieldInfo) (minLength : Option Nat) (maxLength : Option Nat)
  | refK (cls : String) (idField : FieldInfo)

/-- A `Field` instance: the attributes set by `Field.__init__`
(lines 74-90 of `fields.py`).  `name` is `self.name` with `""` standing
for Python `None` (the metaclass later assigns it; `if not item.name`
tests exactly falsiness).  `mongoName` is `self.mongo_name`
(`none` = Python `None`).  `choices = some cs` models a non-`None`
choices set with members `cs`; `defaultVal = some d` models a `_default`
other than `_Empty`. -/
inductive FieldInfo where
  | mk (name : String) (mongoName : Option String) (required : Bool)
      (allowNone : Bool) (choices : Option (List MValue))
      (defaultVal : Option MValue) (kind : FieldKind)
end

def FieldInfo.name : FieldInfo → String
  | .mk n _ _ _ _ _ _ => n

def FieldInfo.mongoName : FieldInfo → Option String
  | .mk _ m _ _ _ _ _ => m

def FieldInfo.required : FieldInfo → Bool
  | .mk _ _ r _ _ _ _ => r

def FieldInfo.allowNone : FieldInfo → Bool
  | .mk _ _ _ a _ _ _ => a

def FieldInfo.choices : FieldInfo → Option (List MValue)
  | .mk _ _ _ _ c _ _ => c

def FieldInfo.defaultVal : FieldInfo → Option MValue
  | .mk _ _ _ _ _ d _ => d

def FieldInfo.kind : FieldInfo → FieldKind
  | .mk _ _ _ _ _ _ k => k

/-- The `s` property: `return self.mongo_name` (`fields.py` line 145-163).
After the metaclass has processed a field, `mongo_name` is always set; the
`""` default only covers the unprocessed state. -/
def FieldInfo.s (f : FieldInfo) : String :=
  f.mongoName.getD ""

/-- The `name` setter (`fields.py` lines 96-100) as applied by
`BaseDocumentMeta._get_fields` (`document.py` line 127-128:
`if not item.name: item.name = name`): when the stored name is falsy the
name is assigned, and the setter copies it into `mongo_name` when that is
`None`. -/
def setFieldName (n : String) : FieldInfo → FieldInfo
  | .mk nm mn r a c d k =>
    if nm = "" then .mk n (some (mn.getD n)) r a c d k
    else .mk nm mn r a c d k

/-- A document class's aggregated ordered field map, `meta.fields`. -/
abbrev Schema := List (String × FieldInfo)

/-- Category of a document class: subclass of `Document` or of
`EmbeddedDocument`. -/
inductive Cat where
  | topDoc
  | embDoc
deriving DecidableEq

/-- What the process knows about one document class: its category, its
aggregated `meta.fields`, and its `meta.fields_synonyms`
(`{field_name => synonym_name}`). -/
structure ClassInfo where
  cat : Cat
  fields : Schema
  syns : List (String × String)

/-- The process-wide collection of (already created) document classes,
keyed by class name.  `vdoc cls data` instances refer into it, exactly as
a Python instance's `type(self)` carries `meta.fields`. -/
abbrev Env := List (String × ClassInfo)

/-- Numeric reading of a Python value, used by `==` and by the order
comparisons of `NumberField` validators (Python compares `bool`, `int`,
`float` and `Decimal` by numeric value; `True == 1 == 1.0`). -/
def toQ : MValue → Option Rat
  | .vbool b => some (if b then 1 else 0)
  | .vint n => some (n : Rat)
  | .vfloat q => some q
  | .vdec c e => some ((c : Rat) * (10 : Rat) ^ (e : Int))
  | _ => none

mutual
/-- Python `==` on the modelled values, as used by `value in choices`.
Numeric types compare by value; strings, ObjectIds, datetimes and lists
structurally; `Decimal128` by decimal value against another `Decimal128`
only (its `__eq__` returns `NotImplemented` for other types).  Document
instances and function objects compare by identity in Python, and two
modelled references are always distinct objects here, so they compare
unequal.  Dict (`vson`) equality is order-insensitive in Python; it is
modelled order-sensitively, which no claim exercises. -/
def mvBeq (a b : MValue) : Bool :=
  match a, b with
  | .vdec128 c e, .vdec128 c' e' =>
    (c : Rat) * (10 : Rat) ^ (e : Int) = (c' : Rat) * (10 : Rat) ^ (e' : Int)
  | .vdec128 _ _, _ => false
  | _, .vdec128 _ _ => false
  | .vstr s, .vstr s' => s = s'
  | .voidv h, .voidv h' => h = h'
  | .vdt t, .vdt t' => t = t'
  | .vnone, .vnone => true
  | .vlist xs, .vlist ys => mvListBeq xs ys
  | .vson d, .vson d' => mvPairsBeq d d'
  | a, b =>
    match toQ a, toQ b with
    | some qa, some qb => qa = qb
    | _, _ => false

def mvListBeq (xs ys : List MValue) : Bool :=
  match xs, ys with
  | [], [] => true
  | x :: xs', y :: ys' => mvBeq x y && mvListBeq xs' ys'
  | _, _ => false

def mvPairsBeq (xs ys : List (String × MValue)) : Bool :=
  match xs, ys with
  | [], [] => true
  | (k, x) :: xs', (k', y) :: ys' => k = k' && mvBeq x y && mvPairsBeq xs' ys'
  | _, _ => false
end

/-- Python `value in choices` (membership by `==`). -/
def mvIn (v : MValue) : List MValue → Bool
  | [] => false
  | c :: cs => mvBeq v c || mvIn v cs

/-- The individual validator methods that `__init__` chains append to
`self.validators`.  Each constructor names one bound method of
`fields.py`. -/
inductive VStep where
  | vNone      -- Field._validate_none
  | vType      -- Field._validate_type
  | vChoices   -- Field._validate_choices
  | vRegex     -- StrField._validate_regex
  | vBlank     -- StrField._validate_blank
  | vMinLength -- StrField._validate_min_length
  | vMaxLength -- StrField._validate_max_length
  | vGte       -- NumberField._validate_gte
  | vLte       -- NumberField._validate_lte
  | vGt        -- NumberField._validate_gt
  | vLt        -- NumberField._validate_lt
  | vListMin   -- ListField._validate_min_length
  | vListMax   -- ListField._validate_max_length
  | vListItems -- ListField._validate_items
  | vEmbDoc    -- EmbDocField's appended `lambda value: value.validate()`
  | vRef       -- RefField._validate_ref
deriving DecidableEq

/-- `self.validators` as assembled by the `__init__` chain of each field
class:

* `Field.__init__` starts with `[_validate_none, _validate_type]` and
  appends `_validate_choices` when `choices is not None`
  (`fields.py` lines 86-90);
* `AnyField.__init__` replaces the list with `[_validate_none]` plus the
  choices validator (lines 195-199);
* `StrField.__init__` then appends regex (if set), blank, min-length
  (note: `if self.min_length:` — a `0` minimum is falsy and appends
  nothing), max-length (`if ... is not None`) (lines 229-235);
* `NumberField.__init__` appends gte/lte/gt/lt for each bound that is not
  `None` (lines 285-292);
* `ListField.__init__` appends its min/max length checks
  (`is not None` both) and `_validate_items` (lines 522-526);
* `EmbDocField.__init__` appends `lambda value: value.validate()`
  (line 462);
* `RefField.__init__` replaces the list with
  `[_validate_none, _validate_ref]` (line 579), discarding the choices
  validator. -/
def buildValidators (f : FieldInfo) : List VStep :=
  let choicesPart : List VStep := if f.choices.isSome then [.vChoices] else []
  match f.kind with
  | .anyK => [.vNone] ++ choicesPart
  | .refK _ _ => [.vNone, .vRef]
  | .strK regex _ minL maxL =>
    [.vNone, .vType] ++ choicesPart
      ++ (if regex.isSome then [.vRegex] else [])
      ++ [.vBlank]
      ++ (match minL with
          | some m => if m ≠ 0 then [.vMinLength] else []
          | none => [])
      ++ (if maxL.isSome then [.vMaxLength] else [])
  | .intK gte lte gt lt =>
    [.vNone, .vType] ++ choicesPart
      ++ (if gte.isSome then [.vGte] else []) ++ (if lte.isSome then [.vLte] else [])
      ++ (if gt.isSome then [.vGt] else []) ++ (if lt.isSome then [.vLt] else [])
  | .floatK gte lte gt lt =>
    [.vNone, .vType] ++ choicesPart
      ++ (if gte.isSome then [.vGte] else []) ++ (if lte.isSome then [.vLte] else [])
      ++ (if gt.isSome then [.vGt] else []) ++ (if lt.isSome then [.vLt] else [])
  | .decK gte lte gt lt =>
    [.vNone, .vType] ++ choicesPart
      ++ (if gte.isSome then [.vGte] else []) ++ (if lte.isSome then [.vLte] else [])
      ++ (if gt.isSome then [.vGt] else []) ++ (if lt.isSome then [.vLt] else [])
  | .boolK => [.vNone, .vType] ++ choicesPart
  | .dtK => [.vNone, .vType] ++ choicesPart
  | .oidK => [.vNone, .vType] ++ choicesPart
  | .embK _ => [.vNone, .vType] ++ choicesPart ++ [.vEmbDoc]
  | .listK _ minL maxL =>
    [.vNone, .vType] ++ choicesPart
      ++ (if minL.isSome then [.vListMin] else [])
      ++ (if maxL.isSome then [.vListMax] else [])
      ++ [.vListItems]

/-- Outcome of calling one validator on a value: it returns normally,
raises `StopValidation`, or raises some other exception (usually a
`ValidationError`). -/
inductive StepR where
  | passS
  | stopS
  | errS (e : PyExc)

/-- `isinstance(value, self.field_type)` for the `field_type` each field
class passes to `Field.__init__`.  Python's `bool` is a subclass of `int`,
so an `IntField` type check accepts `True`/`False`; an `EmbDocField`'s
`field_type` is its `document_class` (set in `EmbDocField.validate`). -/
def typeOk : FieldKind → MValue → Bool
  | .strK _ _ _ _, .vstr _ => true
  | .boolK, .vbool _ => true
  | .intK _ _ _ _, .vint _ => true
  | .intK _ _ _ _, .vbool _ => true
  | .floatK _ _ _ _, .vfloat _ => true
  | .decK _ _ _ _, .vdec _ _ => true
  | .dtK, .vdt _ => true
  | .oidK, .voidv _ => true
  | .listK _ _ _, .vlist _ => true
  | .embK cls, .vdoc c _ => c = cls
  | _, _ => false

theorem sizeOf_alookup_getD_le (l : List (String × MValue)) (k : String) :
    sizeOf ((alookup l k).getD MValue.vnone) ≤ sizeOf l := by
  cases h : alookup l k with
  | none =>
    show sizeOf MValue.vnone ≤ sizeOf l
    cases l with
    | nil => simp
    | cons hd tl => cases hd; simp; omega
  | some v =>
    have := alookup_sizeOf_lt h
    show sizeOf v ≤ sizeOf l
    omega


/-- `NumberField` bound check helpers: comparisons raise `TypeError` when
the operands are unorderable (never reached after the type check). -/
def stepCmp (cmp : Rat → Rat → Bool) (msg : String) (bq : Rat) (bmv : MValue)
    (v : MValue) : StepR :=
  match toQ v with
  | some qv => if cmp qv bq then .errS (.vErr (.leaf msg (some bmv))) else .passS
  | none => .errS (.tyErr "unorderable types")

/-- `Field._validate_none` (`fields.py` lines 165-169). -/
def stepNone (f : FieldInfo) (v : MValue) : StepR :=
  match v with
  | .vnone =>
    if f.allowNone then .stopS
    else .errS (.vErr (.leaf "none value is not allowed" none))
  | _ => .passS

/-- `Field._validate_type` (lines 171-173). -/
def stepType (f : FieldInfo) (v : MValue) : StepR :=
  if typeOk f.kind v then .passS
  else .errS (.vErr (.leaf "invalid value type" none))

/-- `Field._validate_choices` (lines 175-178). -/
def stepChoices (f : FieldInfo) (v : MValue) : StepR :=
  match f.choices with
  | some cs =>
    if mvIn v cs then .stopS
    else .errS (.vErr (.leaf "value does not match any variant" none))
  | none => .errS (.tyErr "choices is None")

/-- `StrField._validate_regex` (lines 253-257), plus `EmailField`'s
override (lines 616-620) which replaces the message. -/
def stepRegex (f : FieldInfo) (v : MValue) : StepR :=
  match v with
  | .vstr s =>
    match f.kind with
    | .strK (some r) _ _ _ =>
      if r.rmatch s then .passS
      else if r = .emailPat then
        .errS (.vErr (.leaf "value is not a valid email address" none))
      else
        .errS (.vErr (.leaf "value does not match pattern {constraint}"
          (some (.vstr r.pattern))))
    | _ => .errS (.tyErr "regex is None")
  | _ => .errS (.tyErr "expected string or bytes-like object")

/-- `StrField._validate_blank` (lines 247-251). -/
def stepBlank (f : FieldInfo) (v : MValue) : StepR :=
  match v with
  | .vstr "" =>
    if f.kind matches .strK _ true _ _ then .stopS
    else .errS (.vErr (.leaf "blank value is not allowed" none))
  | _ => .passS

/-- `StrField._validate_min_length` (lines 242-245). -/
def stepMinLength (f : FieldInfo) (v : MValue) : StepR :=
  match v with
  | .vstr s =>
    match f.kind with
    | .strK _ _ (some m) _ =>
      if s.length < m then
        .errS (.vErr (.leaf "length is less than {constraint}" (some (.vint m))))
      else .passS
    | _ => .errS (.tyErr "min_length is None")
  | _ => .errS (.tyErr "object has no len")

/-- `StrField._validate_max_length` (lines 237-240). -/
def stepMaxLength (f : FieldInfo) (v : MValue) : StepR :=
  match v with
  | .vstr s =>
    match f.kind with
    | .strK _ _ _ (some m) =>
      if s.length > m then
        .errS (.vErr (.leaf "length is greater than {constraint}" (some (.vint m))))
      else .passS
    | _ => .errS (.tyErr "max_length is None")
  | _ => .errS (.tyErr "object has no len")

/-- `NumberField._validate_gte` (lines 294-297). -/
def stepGte (f : FieldInfo) (v : MValue) : StepR :=
  match f.kind with
  | .intK (some b) _ _ _ =>
    stepCmp (fun a c => a < c) "value is less than {constraint}" (b : Rat) (.vint b) v
  | .floatK (some b) _ _ _ =>
    stepCmp (fun a c => a < c) "value is less than {constraint}" b (.vfloat b) v
  | .decK (some (c, e)) _ _ _ =>
    stepCmp (fun a b => a < b) "value is less than {constraint}"
      ((c : Rat) * (10 : Rat) ^ (e : Int)) (.vdec c e) v
  | _ => .errS (.tyErr "gte is None")

/-- `NumberField._validate_lte` (lines 299-302). -/
def stepLte (f : FieldInfo) (v : MValue) : StepR :=
  match f.kind with
  | .intK _ (some b) _ _ =>
    stepCmp (fun a c => a > c) "value is greater than {constraint}" (b : Rat) (.vint b) v
  | .floatK _ (some b) _ _ =>
    stepCmp (fun a c => a > c) "value is greater than {constraint}" b (.vfloat b) v
  | .decK _ (some (c, e)) _ _ =>
    stepCmp (fun a b => a > b) "value is greater than {constraint}"
      ((c : Rat) * (10 : Rat) ^ (e : Int)) (.vdec c e) v
  | _ => .errS (.tyErr "lte is None")

/-- `NumberField._validate_gt` (lines 304-307). -/
def stepGt (f : FieldInfo) (v : MValue) : StepR :=
  match f.kind with
  | .intK _ _ (some b) _ =>
    stepCmp (fun a c => a ≤ c) "value should be greater than {constraint}"
      (b : Rat) (.vint b) v
  | .floatK _ _ (some b) _ =>
    stepCmp (fun a c => a ≤ c) "value should be greater than {constraint}" b (.vfloat b) v
  | .decK _ _ (some (c, e)) _ =>
    stepCmp (fun a b => a ≤ b) "value should be greater than {constraint}"
      ((c : Rat) * (10 : Rat) ^ (e : Int)) (.vdec c e) v
  | _ => .errS (.tyErr "gt is None")

/-- `NumberField._validate_lt` (lines 309-312). -/
def stepLt (f : FieldInfo) (v : MValue) : StepR :=
  match f.kind with
  | .intK _ _ _ (some b) =>
    stepCmp (fun a c => a ≥ c) "value should be less than {constraint}"
      (b : Rat) (.vint b) v
  | .floatK _ _ _ (some b) =>
    stepCmp (fun a c => a ≥ c) "value should be less than {constraint}" b (.vfloat b) v
  | .decK _ _ _ (some (c, e)) =>
    stepCmp (fun a b => a ≥ b) "value should be less than {constraint}"
      ((c : Rat) * (10 : Rat) ^ (e : Int)) (.vdec c e) v
  | _ => .errS (.tyErr "lt is None")

/-- `ListField._validate_min_length` (lines 528-531). -/
def stepListMin (f : FieldInfo) (v : MValue) : StepR :=
  match v with
  | .vlist xs =>
    match f.kind with
    | .listK _ (some m) _ =>
      if xs.length < m then
        .errS (.vErr (.leaf "list length is less than {constraint}" (some (.vint m))))
      else .passS
    | _ => .errS (.tyErr "min_length is None")
  | _ => .errS (.tyErr "object has no len")

/-- `ListField._validate_max_length` (lines 533-536). -/
def stepListMax (f : FieldInfo) (v : MValue) : StepR :=
  match v with
  | .vlist xs =>
    match f.kind with
    | .listK _ _ (some m) =>
      if xs.length > m then
        .errS (.vErr (.leaf "list length is greater than {constraint}" (some (.vint m))))
      else .passS
    | _ => .errS (.tyErr "max_length is None")
  | _ => .errS (.tyErr "object has no len")

mutual
/-- One validator call `func(value)`: dispatch to the bound method that the
step names.  `f` is the field the validator is bound to; the three
recursive validators (`_validate_items`, the `value.validate()` lambda of
`EmbDocField`, `_validate_ref`) are inlined here. -/
def runStep (env : Env) (f : FieldInfo) (st : VStep) (v : MValue) : StepR :=
  match st with
  | .vNone => stepNone f v
  | .vType => stepType f v
  | .vChoices => stepChoices f v
  | .vRegex => stepRegex f v
  | .vBlank => stepBlank f v
  | .vMinLength => stepMinLength f v
  | .vMaxLength => stepMaxLength f v
  | .vGte => stepGte f v
  | .vLte => stepLte f v
  | .vGt => stepGt f v
  | .vLt => stepLt f v
  | .vListMin => stepListMin f v
  | .vListMax => stepListMax f v
  | .vListItems =>
    match v with
    | .vlist xs =>
      match f.kind with
      | .listK item _ _ =>
        match collectItemErrors env item xs 0 with
        | .ok [] => .passS
        | .ok errs => .errS (.vErr (.branch errs))
        | .error e => .errS e
      | _ => .errS (.tyErr "item_field missing")
    | _ => .errS (.tyErr "object is not iterable")
  | .vEmbDoc =>
    -- the appended lambda calls `value.validate()`, i.e. whole-document
    -- validation against the *value's own* class
    match v with
    | .vdoc c d =>
      match alookup env c with
      | some ci =>
        match docValidate env ci.fields d with
        | .ok _ => .passS
        | .error e => .errS e
      | none => .errS (.impErr "instance of unknown class")
    | _ => .errS (.tyErr "object has no attribute validate")
  | .vRef =>
    match f with
    | .mk _ _ _ _ _ _ (.refK cls idf) =>
      -- `_id = value._id if isinstance(value, self.document_class) else value`
      match v with
      | .vdoc c d =>
        if c = cls then
          match fieldValidate env idf ((alookup d "_id").getD .vnone) with
          | .ok _ => .passS
          | .error e => .errS e
        else
          match fieldValidate env idf (.vdoc c d) with
          | .ok _ => .passS
          | .error e => .errS e
      | v =>
        match fieldValidate env idf v with
        | .ok _ => .passS
        | .error e => .errS e
    | _ => .errS (.tyErr "not a RefField")
termination_by (sizeOf v, sizeOf f, 1, 0)
decreasing_by
  all_goals (simp_wf
             solve
             | (apply Prod.Lex.left
                try simp
                try omega)
             | (apply Prod.Lex.left
                have h1 := sizeOf_alookup_getD_le d "_id"
                simp at h1 ⊢
                omega)
             | (apply Prod.Lex.right
                apply Prod.Lex.left
                try simp
                try omega)
             | (apply Prod.Lex.right
                apply Prod.Lex.right
                apply Prod.Lex.left
                omega)
             | (apply Prod.Lex.right
                apply Prod.Lex.right
                apply Prod.Lex.right
                try simp
                try omega))

/-- The `for index, item in enumerate(value)` loop body of
`ListField._validate_items` (`fields.py` lines 538-547): each element is
validated, a `ValidationError` is recorded under the element's index, any
other exception propagates. -/
def collectItemErrors (env : Env) (item : FieldInfo) (xs : List MValue)
    (i : Nat) : Except PyExc (List (EKey × VError)) :=
  match xs with
  | [] => .ok []
  | x :: rest =>
    match fieldValidate env item x with
    | .ok _ =>
      collectItemErrors env item rest (i + 1)
    | .error (.vErr e) =>
      match collectItemErrors env item rest (i + 1) with
      | .ok errs => .ok ((.ix i, e) :: errs)
      | .error e2 => .error e2
    | .error e => .error e
termination_by (sizeOf xs, sizeOf item, 2, 0)
decreasing_by
  all_goals (simp_wf
             solve
             | (apply Prod.Lex.left
                try simp
                try omega)
             | (apply Prod.Lex.right
                apply Prod.Lex.left
                try simp
                try omega))

/-- `try: for func in self.validators: func(value) except StopValidation:
return` (`Field.validate`, `fields.py` lines 180-185): validators run in
order; `StopValidation` ends the field's validation successfully; a
`ValidationError` (or any other exception) propagates to the caller. -/
def runSteps (env : Env) (f : FieldInfo) (steps : List VStep) (v : MValue) :
    Except PyExc Unit :=
  match steps with
  | [] => .ok ()
  | st :: rest =>
    match runStep env f st v with
    | .passS => runSteps env f rest v
    | .stopS => .ok ()
    | .errS e => .error e
termination_by (sizeOf v, sizeOf f, 2, steps.length)
decreasing_by
  all_goals (simp_wf
             solve
             | (apply Prod.Lex.right
                apply Prod.Lex.right
                apply Prod.Lex.left
                omega)
             | (apply Prod.Lex.right
                apply Prod.Lex.right
                apply Prod.Lex.right
                omega))

/-- `Field.validate` for field `f`: run the validator list built by the
`__init__` chain.  (`EmbDocField.validate` first forces `field_type` to
the resolved `document_class`, which `typeOk` already consults.) -/
def fieldValidate (env : Env) (f : FieldInfo) (v : MValue) :
    Except PyExc Unit :=
  runSteps env f (buildValidators f) v
termination_by (sizeOf v, sizeOf f, 3, 0)
decreasing_by
  all_goals (simp_wf
             apply Prod.Lex.right
             apply Prod.Lex.right
             apply Prod.Lex.left
             omega)

/-- The `for field_name, field in cls.meta.fields.items()` loop of
`BaseDocument.validate_document` (`document.py` lines 342-351), carrying
the `errors` dict: a present value is validated (a `ValidationError` is
recorded under the field name, other exceptions propagate), an absent
required field records `ValidationError('field is required')`. -/
def docValidateAux (env : Env) (schema : Schema)
    (data : List (String × MValue)) (acc : List (EKey × VError)) :
    Except PyExc (List (EKey × VError)) :=
  match schema with
  | [] => .ok acc
  | (n, f) :: rest =>
    match hlook : alookup data n with
    | some v =>
      match fieldValidate env f v with
      | .ok _ => docValidateAux env rest data acc
      | .error (.vErr e) =>
        docValidateAux env rest data (dictInsert acc (.fk n) e)
      | .error e => .error e
    | none =>
      if f.required then
        docValidateAux env rest data
          (dictInsert acc (.fk n) (.leaf "field is required" none))
      else docValidateAux env rest data acc
termination_by (sizeOf data, sizeOf schema, 0, 0)
decreasing_by
  all_goals (simp_wf
             solve
             | (apply Prod.Lex.left
                exact alookup_sizeOf_lt hlook)
             | (apply Prod.Lex.right
                apply Prod.Lex.left
                try simp
                try omega))

/-- `BaseDocument.validate_document` (`document.py` lines 332-353):
validate every field of the schema against the instance's `_data`, then
raise a single `ValidationError` whose payload is the `errors` dict keyed
by field name, if and only if that dict is non-empty. -/
def docValidate (env : Env) (schema : Schema)
    (data : List (String × MValue)) : Except PyExc Unit :=
  match docValidateAux env schema data [] with
  | .ok [] => .ok ()
  | .ok errs => .error (.vErr (.branch errs))
  | .error e => .error e
termination_by (sizeOf data, sizeOf schema, 1, 0)
decreasing_by
  all_goals (simp_wf
             apply Prod.Lex.right
             apply Prod.Lex.right
             apply Prod.Lex.left
             omega)

end


/-- Whether the *representation* `(c, e)` — reading `c * 10 ^ e` — is one a
`bson.Decimal128` can hold directly: a coefficient of at most 34 decimal
digits and an exponent within `[-6176, 6111]`.  `Decimal128(value)`
converts such a Decimal keeping coefficient and exponent intact, so these
are exactly the Decimals on which `to_mongo`/`from_mongo` is the identity
at the representation level (`decFix_repr`).  A Decimal *outside* this
form may still convert — `create_decimal` rescales or clamps it when that
is exact, returning a different representation of the same number — and
raises `decimal.Inexact`/`decimal.Overflow` when it is not (`decFix`). -/
def dec128Repr (c e : Int) : Bool :=
  c.natAbs < 10 ^ 34 && -6176 ≤ e && e ≤ 6111

/-- Number of decimal digits of `n` (1 for `0`), written with an explicit
structural fuel so that it evaluates by kernel reduction; `fuel = n` is
always enough since each recursion step divides `n` by 10. -/
def decDigitsAux : Nat → Nat → Nat
  | 0, _ => 1
  | fuel + 1, n => if n < 10 then 1 else decDigitsAux fuel (n / 10) + 1

def decDigits (n : Nat) : Nat := decDigitsAux n n

/-- Does `ROUND_HALF_EVEN` round the magnitude `a`, rescaled by `10 ^ sh`,
away from zero?  (Only consulted on a lossy rescale, where it decides the
`Overflow`-versus-`Inexact` precedence of `_fix`.) -/
def decRoundUp (a sh : Nat) : Bool :=
  2 * (a % 10 ^ sh) > 10 ^ sh ||
    (2 * (a % 10 ^ sh) == 10 ^ sh && (a / 10 ^ sh) % 2 == 1)

/-- The `self._exp < exp_min` arm of `decimal._fix`: rescale the
coefficient up to exponent `e + sh`.  An exact rescale (the dropped digits
are all zero) succeeds with the shifted coefficient and only the untrapped
`Rounded`/`Subnormal` signals; a lossy one raises — `decimal.Overflow`
when the rounded-up coefficient overflows 34 digits and pushes the
exponent past `Etop` (the `exp_min += 1` path of `_fix`), else
`decimal.Inexact` (both are trapped in bson's context). -/
def decFixRound (c e : Int) (sh : Nat) : Except PyExc (Int × Int) :=
  if c.natAbs % 10 ^ sh = 0 then .ok (c / (10 ^ sh : Int), e + (sh : Int))
  else if decRoundUp c.natAbs sh = true ∧
      c.natAbs / 10 ^ sh + 1 = 10 ^ 34 ∧ e + (sh : Int) + 1 > 6111 then
    .error (.otherExc "decimal.Overflow")
  else .error (.otherExc "decimal.Inexact")

/-- `Context.create_decimal` on a finite `Decimal` with representation
`(c, e)` under bson's `_DEC128_CTX` (`bson/decimal128.py`: `prec=34`,
`Emin=-6143`, `Emax=6144`, `clamp=1`, traps
`InvalidOperation`/`Overflow`/`Inexact`) — a transcription of CPython
`_pydecimal.Decimal._fix`:

* a zero keeps its sign and has its exponent clamped into
  `[Etiny, Etop] = [-6176, 6111]` (only the untrapped `Clamped` signals);
* otherwise, with `exp_min = digits(c) + e - prec`: `exp_min > Etop` is an
  immediate `decimal.Overflow`;
* if `e < max exp_min Etiny` the coefficient is rescaled up to that
  exponent (`decFixRound`) — exactly-representable values (trailing
  zeros, e.g. `Decimal(10 ^ 35)`) succeed, lossy ones raise;
* else, under `clamp=1`, an exponent above `Etop` is folded down by
  padding the coefficient with zeros (exact, untrapped `Clamped`);
* else the representation is already in range and is returned as is. -/
def decFix (c e : Int) : Except PyExc (Int × Int) :=
  if c = 0 then .ok (0, min (max e (-6176)) 6111)
  else if (decDigits c.natAbs : Int) + e - 34 > 6111 then
    .error (.otherExc "decimal.Overflow")
  else if e < max ((decDigits c.natAbs : Int) + e - 34) (-6176) then
    decFixRound c e
      ((max ((decDigits c.natAbs : Int) + e - 34) (-6176) - e).toNat)
  else if e > 6111 then .ok (c * (10 ^ (e - 6111).toNat : Int), 6111)
  else .ok (c, e)

mutual
/-- `field.to_mongo(value)`:

* the base `Field.to_mongo` returns the value unchanged (`fields.py`
  lines 122-124) — this covers `AnyField`, `StrField`/`EmailField`,
  `BoolField`, `IntField`, `FloatField`, `DateTimeField`, `ObjectIdField`;
* `DecimalField.to_mongo` (lines 633-636): `None` passes through,
  otherwise `Decimal128(value)`, i.e. `create_decimal` under bson's
  `_DEC128_CTX` (`decFix`) — an exactly representable Decimal converts,
  its representation rescaled or clamped into the format where needed,
  while a lossy one raises `decimal.Inexact` or `decimal.Overflow` (the
  constructor's acceptance of strings is not modelled — no validated
  value reaches it);
* `EmbDocField.to_mongo` (lines 468-471): `None` passes through, otherwise
  `value.to_mongo()` — conversion against the *value's own* class;
* `ListField.to_mongo` (lines 549-552): `None` passes through, otherwise
  an element-wise list;
* `RefField.to_mongo` (lines 586-589): an instance of the target class
  stores only `document_class._id.to_mongo(value._id)`; any other value
  is converted by `document_class._id.to_mongo` directly. -/
def fieldToMongo (env : Env) (f : FieldInfo) (v : MValue) :
    Except PyExc MValue :=
  match f with
  | .mk _ _ _ _ _ _ .anyK => .ok v
  | .mk _ _ _ _ _ _ (.strK _ _ _ _) => .ok v
  | .mk _ _ _ _ _ _ .boolK => .ok v
  | .mk _ _ _ _ _ _ (.intK _ _ _ _) => .ok v
  | .mk _ _ _ _ _ _ (.floatK _ _ _ _) => .ok v
  | .mk _ _ _ _ _ _ .dtK => .ok v
  | .mk _ _ _ _ _ _ .oidK => .ok v
  | .mk _ _ _ _ _ _ (.decK _ _ _ _) =>
    match v with
    | .vnone => .ok .vnone
    | .vdec c e =>
      match decFix c e with
      | .ok (c2, e2) => .ok (.vdec128 c2 e2)
      | .error ex => .error ex
    | _ => .error (.tyErr "cannot convert to Decimal128")
  | .mk _ _ _ _ _ _ (.embK _) =>
    match v with
    | .vnone => .ok .vnone
    | .vdoc c d =>
      match alookup env c with
      | some ci =>
        match docToMongo env ci.fields d with
        | .ok son => .ok (.vson son)
        | .error e => .error e
      | none => .error (.impErr "instance of unknown class")
    | _ => .error (.otherExc "AttributeError: object has no attribute to_mongo")
  | .mk _ _ _ _ _ _ (.listK item _ _) =>
    match v with
    | .vnone => .ok .vnone
    | .vlist xs =>
      match itemsToMongo env item xs with
      | .ok ws => .ok (.vlist ws)
      | .error e => .error e
    | _ => .error (.tyErr "object is not iterable")
  | .mk _ _ _ _ _ _ (.refK cls idf) =>
    match v with
    | .vdoc c d =>
      if c = cls then fieldToMongo env idf ((alookup d "_id").getD .vnone)
      else fieldToMongo env idf (.vdoc c d)
    | v => fieldToMongo env idf v
termination_by (sizeOf v, sizeOf f, 2, 0)
decreasing_by
  all_goals (simp_wf
             solve
             | (apply Prod.Lex.left
                try simp
                try omega)
             | (apply Prod.Lex.left
                have h1 := sizeOf_alookup_getD_le d "_id"
                simp at h1 ⊢
                omega)
             | (apply Prod.Lex.right
                apply Prod.Lex.left
                try simp
                try omega))

/-- The list comprehension of `ListField.to_mongo`:
`[self.item_field.to_mongo(item) for item in value]`. -/
def itemsToMongo (env : Env) (item : FieldInfo) (xs : List MValue) :
    Except PyExc (List MValue) :=
  match xs with
  | [] => .ok []
  | x :: rest =>
    match fieldToMongo env item x with
    | .ok w =>
      match itemsToMongo env item rest with
      | .ok ws => .ok (w :: ws)
      | .error e => .error e
    | .error e => .error e
termination_by (sizeOf xs, sizeOf item, 2, 0)
decreasing_by
  all_goals (simp_wf
             apply Prod.Lex.left
             try simp
             try omega)

/-- The loop of `BaseDocument.to_mongo` (`document.py` lines 285-292):
`son[field.mongo_name] = field.to_mongo(self._data[field_name])` for each
schema field present in `_data`, carrying the SON built so far. -/
def docToMongoAux (env : Env) (schema : Schema)
    (data : List (String × MValue)) (acc : List (String × MValue)) :
    Except PyExc (List (String × MValue)) :=
  match schema with
  | [] => .ok acc
  | (n, f) :: rest =>
    match hlook : alookup data n with
    | some v =>
      match fieldToMongo env f v with
      | .ok w => docToMongoAux env rest data (dictInsert acc f.s w)
      | .error e => .error e
    | none => docToMongoAux env rest data acc
termination_by (sizeOf data, sizeOf schema, 0, 0)
decreasing_by
  all_goals (simp_wf
             solve
             | (apply Prod.Lex.left
                exact alookup_sizeOf_lt hlook)
             | (apply Prod.Lex.right
                apply Prod.Lex.left
                try simp
                try omega))

/-- `BaseDocument.to_mongo`: the SON of the converted present fields. -/
def docToMongo (env : Env) (schema : Schema) (data : List (String × MValue)) :
    Except PyExc (List (String × MValue)) :=
  docToMongoAux env schema data []
termination_by (sizeOf data, sizeOf schema, 1, 0)
decreasing_by
  all_goals (simp_wf
             apply Prod.Lex.right
             apply Prod.Lex.right
             apply Prod.Lex.left
             omega)

end

mutual
/-- `field.from_mongo(value)`:

* the base `Field.from_mongo` returns the value unchanged (`fields.py`
  lines 126-128) — `AnyField`, `StrField`/`EmailField`, `BoolField`,
  `IntField`, `FloatField`, `DateTimeField`, `ObjectIdField`;
* `DecimalField.from_mongo` (lines 638-645): `None` passes through; a
  `Decimal128` yields `.to_decimal()` (exactly the stored coefficient
  and exponent); any other value goes through `Decimal128(str(value))`
  first — the same `create_decimal` context, `decFix` — modelled for
  `int` and `Decimal` inputs, whose `str` round-trips their
  representation (numeric strings, which Python would also parse, are
  not modelled: no wire value produced by `to_mongo` is one; a
  non-numeric `str(value)` raises `decimal.InvalidOperation`);
* `EmbDocField.from_mongo` (lines 473-476): `None` passes through,
  otherwise `self.document_class.from_mongo(value)` — conversion against
  the *field's declared* class;
* `ListField.from_mongo` (lines 554-557): `None` passes through, otherwise
  element-wise;
* `RefField.from_mongo` (lines 591-592): always
  `self.document_class._id.from_mongo(value)`. -/
def fieldFromMongo (env : Env) (f : FieldInfo) (w : MValue) :
    Except PyExc MValue :=
  match f with
  | .mk _ _ _ _ _ _ .anyK => .ok w
  | .mk _ _ _ _ _ _ (.strK _ _ _ _) => .ok w
  | .mk _ _ _ _ _ _ .boolK => .ok w
  | .mk _ _ _ _ _ _ (.intK _ _ _ _) => .ok w
  | .mk _ _ _ _ _ _ (.floatK _ _ _ _) => .ok w
  | .mk _ _ _ _ _ _ .dtK => .ok w
  | .mk _ _ _ _ _ _ .oidK => .ok w
  | .mk _ _ _ _ _ _ (.decK _ _ _ _) =>
    match w with
    | .vnone => .ok .vnone
    | .vdec128 c e => .ok (.vdec c e)
    | .vint n =>
      match decFix n 0 with
      | .ok (c2, e2) => .ok (.vdec c2 e2)
      | .error ex => .error ex
    | .vdec c e =>
      match decFix c e with
      | .ok (c2, e2) => .ok (.vdec c2 e2)
      | .error ex => .error ex
    | _ => .error (.otherExc "decimal.InvalidOperation")
  | .mk _ _ _ _ _ _ (.embK cls) =>
    match w with
    | .vnone => .ok .vnone
    | .vson d =>
      match alookup env cls with
      | some ci =>
        match docFromMongo env ci.fields d with
        | .ok data => .ok (.vdoc cls data)
        | .error e => .error e
      | none => .error (.impErr "unknown document class")
    | _ => .error (.tyErr "value is not subscriptable")
  | .mk _ _ _ _ _ _ (.listK item _ _) =>
    match w with
    | .vnone => .ok .vnone
    | .vlist ws =>
      match itemsFromMongo env item ws with
      | .ok vs => .ok (.vlist vs)
      | .error e => .error e
    | _ => .error (.tyErr "object is not iterable")
  | .mk _ _ _ _ _ _ (.refK _ idf) => fieldFromMongo env idf w
termination_by (sizeOf w, sizeOf f, 2, 0)
decreasing_by
  all_goals (simp_wf
             solve
             | (apply Prod.Lex.left
                try simp
                try omega)
             | (apply Prod.Lex.right
                apply Prod.Lex.left
                try simp
                try omega))

/-- The list comprehension of `ListField.from_mongo`. -/
def itemsFromMongo (env : Env) (item : FieldInfo) (ws : List MValue) :
    Except PyExc (List MValue) :=
  match ws with
  | [] => .ok []
  | w :: rest =>
    match fieldFromMongo env item w with
    | .ok v =>
      match itemsFromMongo env item rest with
      | .ok vs => .ok (v :: vs)
      | .error e => .error e
    | .error e => .error e
termination_by (sizeOf ws, sizeOf item, 2, 0)
decreasing_by
  all_goals (simp_wf
             apply Prod.Lex.left
             try simp
             try omega)

/-- The loop of `BaseDocument._set_mongo_data` (`document.py` lines
258-266): for each schema field, `with contextlib.suppress(KeyError):
self._data[field_name] = field.from_mongo(data[field.mongo_name])` —
fields absent from the wire document are skipped, carrying the `_data`
built so far. -/
def docFromMongoAux (env : Env) (schema : Schema)
    (son : List (String × MValue)) (acc : List (String × MValue)) :
    Except PyExc (List (String × MValue)) :=
  match schema with
  | [] => .ok acc
  | (n, f) :: rest =>
    match hlook : alookup son f.s with
    | some w =>
      match fieldFromMongo env f w with
      | .ok v => docFromMongoAux env rest son (dictInsert acc n v)
      | .error e => .error e
    | none => docFromMongoAux env rest son acc
termination_by (sizeOf son, sizeOf schema, 0, 0)
decreasing_by
  all_goals (simp_wf
             solve
             | (apply Prod.Lex.left
                exact alookup_sizeOf_lt hlook)
             | (apply Prod.Lex.right
                apply Prod.Lex.left
                try simp
                try omega))

/-- `BaseDocument.from_mongo` minus the instance allocation: the `_data`
map built by `cls(_empty=True)._set_mongo_data(data)` (`document.py`
lines 294-306). -/
def docFromMongo (env : Env) (schema : Schema)
    (son : List (String × MValue)) :
    Except PyExc (List (String × MValue)) :=
  docFromMongoAux env schema son []
termination_by (sizeOf son, sizeOf schema, 1, 0)
decreasing_by
  all_goals (simp_wf
             apply Prod.Lex.right
             apply Prod.Lex.right
             apply Prod.Lex.left
             omega)

end


/-- Unfolding lemmas: the dependent matches of the loop translations,
restated as plain equations for rewriting. -/
theorem docValidateAux_nil (env : Env) (data : List (String × MValue))
    (acc : List (EKey × VError)) :
    docValidateAux env [] data acc = .ok acc := by
  rw [docValidateAux.eq_def]

theorem docValidateAux_cons (env : Env) (n : String) (f : FieldInfo)
    (rest : Schema) (data : List (String × MValue))
    (acc : List (EKey × VError)) :
    docValidateAux env ((n, f) :: rest) data acc =
      match alookup data n with
      | some v =>
        match fieldValidate env f v with
        | .ok _ => docValidateAux env rest data acc
        | .error (.vErr e) =>
          docValidateAux env rest data (dictInsert acc (.fk n) e)
        | .error e => .error e
      | none =>
        if f.required then
          docValidateAux env rest data
            (dictInsert acc (.fk n) (.leaf "field is required" none))
        else docValidateAux env rest data acc := by
  rw [docValidateAux.eq_def]
  split
  · rename_i heq
    exact absurd heq (List.cons_ne_nil _ _)
  · rename_i n2 f2 rest2 heq
    injection heq with hpair hrest
    injection hpair with hn hf
    subst hn
    subst hf
    subst hrest
    split
    · rename_i v heq2
      rw [heq2]
      try rfl
    · rename_i heq2
      rw [heq2]
      try rfl

theorem docToMongoAux_nil (env : Env) (data acc : List (String × MValue)) :
    docToMongoAux env [] data acc = .ok acc := by
  rw [docToMongoAux.eq_def]

theorem docToMongoAux_cons (env : Env) (n : String) (f : FieldInfo)
    (rest : Schema) (data acc : List (String × MValue)) :
    docToMongoAux env ((n, f) :: rest) data acc =
      match alookup data n with
      | some v =>
        match fieldToMongo env f v with
        | .ok w => docToMongoAux env rest data (dictInsert acc f.s w)
        | .error e => .error e
      | none => docToMongoAux env rest data acc := by
  rw [docToMongoAux.eq_def]
  split
  · rename_i heq
    exact absurd heq (List.cons_ne_nil _ _)
  · rename_i n2 f2 rest2 heq
    injection heq with hpair hrest
    injection hpair with hn hf
    subst hn
    subst hf
    subst hrest
    split
    · rename_i v heq2
      rw [heq2]
      try rfl
    · rename_i heq2
      rw [heq2]
      try rfl

theorem docFromMongoAux_nil (env : Env) (son acc : List (String × MValue)) :
    docFromMongoAux env [] son acc = .ok acc := by
  rw [docFromMongoAux.eq_def]

theorem docFromMongoAux_cons (env : Env) (n : String) (f : FieldInfo)
    (rest : Schema) (son acc : List (String × MValue)) :
    docFromMongoAux env ((n, f) :: rest) son acc =
      match alookup son f.s with
      | some w =>
        match fieldFromMongo env f w with
        | .ok v => docFromMongoAux env rest son (dictInsert acc n v)
        | .error e => .error e
      | none => docFromMongoAux env rest son acc := by
  rw [docFromMongoAux.eq_def]
  split
  · rename_i heq
    exact absurd heq (List.cons_ne_nil _ _)
  · rename_i n2 f2 rest2 heq
    injection heq with hpair hrest
    injection hpair with hn hf
    subst hn
    subst hf
    subst hrest
    split
    · rename_i v heq2
      rw [heq2]
      try rfl
    · rename_i heq2
      rw [heq2]
      try rfl

/-- `Field.__get__` on an instance (`fields.py` lines 109-117):
`return instance._data[self.name]`, and on `KeyError` return `None`.
The instance's `_data` is passed and returned explicitly to express that
the read performs no assignment. -/
def fieldGet (f : FieldInfo) (data : List (String × MValue)) :
    MValue × List (String × MValue) :=
  match alookup data f.name with
  | some v => (v, data)
  | none => (.vnone, data)

/-- Calling a zero-argument Python value: a callable runs its body, any
other value raises `TypeError: object is not callable`. -/
def callPy : MValue → Except PyExc MValue
  | .vfuncReturns v => .ok v
  | .vfuncRaisesTypeError => .error (.tyErr "exception raised inside callable")
  | .vfuncRaisesOther => .error (.otherExc "exception raised inside callable")
  | _ => .error (.tyErr "object is not callable")

/-- The `Field.default` property (`fields.py` lines 102-107):
`try: return self._default() except TypeError: return self._default`.
The result `none` is the `_Empty` sentinel (`_default` unset: calling
`_Empty` raises `TypeError`, which is caught, and `_Empty` itself comes
back). -/
def defaultProp (f : FieldInfo) : Except PyExc (Option MValue) :=
  match f.defaultVal with
  | none => .ok none
  | some d =>
    match callPy d with
    | .ok v => .ok (some v)
    | .error (.tyErr _) => .ok (some d)
    | .error e => .error e

/-- C9: for every field and every instance `_data` map that has no entry
for the field's name, `Field.__get__` returns the fixed absent sentinel
(Python `None`) — never the field's default, whatever that default is —
and leaves the `_data` map unchanged.  The second conjunct makes
"never the default" explicit: whenever the field's stored default differs
from the sentinel, the value read is not that default. -/
theorem c9_absent_read_returns_sentinel (f : FieldInfo)
    (data : List (String × MValue)) (habs : alookup data f.name = none) :
    fieldGet f data = (MValue.vnone, data) ∧
      (∀ d, f.defaultVal = some d → d ≠ MValue.vnone →
        (fieldGet f data).1 ≠ d) := by
  have hget : fieldGet f data = (MValue.vnone, data) := by
    unfold fieldGet
    rw [habs]
  refine ⟨hget, ?_⟩
  intro d _ hne
  rw [hget]
  exact fun h => hne h.symm

/-- Witness for C9 at a concrete input: a non-required `IntField` with
default `5`; reading it from an empty `_data` yields `None` (not `5`) and
leaves `_data` empty. -/
theorem c9_absent_read_returns_sentinel_witness :
    fieldGet (.mk "value" (some "value") false false none (some (.vint 5))
        (.intK none none none none)) [] = (MValue.vnone, []) ∧
      (∀ d, (FieldInfo.mk "value" (some "value") false false none
          (some (.vint 5)) (.intK none none none none)).defaultVal = some d →
        d ≠ MValue.vnone →
        (fieldGet (.mk "value" (some "value") false false none (some (.vint 5))
          (.intK none none none none)) []).1 ≠ d) :=
  c9_absent_read_returns_sentinel
    (.mk "value" (some "value") false false none (some (.vint 5))
      (.intK none none none none)) [] rfl

/-- C10: default-value resolution is "call it, and treat `TypeError` as
not-callable": accessing `Field.default` with a stored `_default`

* returns the call's result when calling succeeds,
* returns the stored object *itself* when calling raises `TypeError` —
  whether because the object is not callable at all (a plain value, or a
  callable demanding arguments) or because a `TypeError` escaped from a
  zero-argument callable's own body,
* propagates any non-`TypeError` exception. -/
theorem c10_default_swallows_typeerror (f : FieldInfo) (d : MValue)
    (h : f.defaultVal = some d) :
    (∀ v, d = .vfuncReturns v → defaultProp f = .ok (some v)) ∧
      (d = .vfuncRaisesTypeError → defaultProp f = .ok (some d)) ∧
      ((∀ v, d ≠ .vfuncReturns v) → d ≠ .vfuncRaisesOther →
        defaultProp f = .ok (some d)) ∧
      (d = .vfuncRaisesOther →
        defaultProp f = .error (.otherExc "exception raised inside callable")) := by
  refine ⟨?_, ?_, ?_, ?_⟩
  · rintro v rfl
    unfold defaultProp
    rw [h]
    rfl
  · rintro rfl
    unfold defaultProp
    rw [h]
    rfl
  · intro hnc hno
    unfold defaultProp
    rw [h]
    cases d with
    | vfuncReturns v => exact absurd rfl (hnc v)
    | vfuncRaisesOther => exact absurd rfl hno
    | vfuncRaisesTypeError => rfl
    | vnone => rfl
    | vbool b => rfl
    | vint n => rfl
    | vfloat q => rfl
    | vstr s => rfl
    | vdec c e => rfl
    | vdec128 c e => rfl
    | voidv hx => rfl
    | vdt t => rfl
    | vlist xs => rfl
    | vdoc c dt => rfl
    | vson dt => rfl
  · rintro rfl
    unfold defaultProp
    rw [h]
    rfl

/-- Witness for C10 at a concrete input: a field whose `_default` is a
zero-argument generator that raises `TypeError` in its body; `default`
returns the generator object itself. -/
theorem c10_default_swallows_typeerror_witness :
    defaultProp (.mk "value" (some "value") true false none
        (some .vfuncRaisesTypeError) (.intK none none none none)) =
      .ok (some .vfuncRaisesTypeError) :=
  (c10_default_swallows_typeerror
    (.mk "value" (some "value") true false none (some .vfuncRaisesTypeError)
      (.intK none none none none)) .vfuncRaisesTypeError rfl).2.1 rfl


theorem dictInsert_append {κ α : Type} [DecidableEq κ] (acc : List (κ × α))
    (k : κ) (v : α) (h : k ∉ acc.map Prod.fst) :
    dictInsert acc k v = acc ++ [(k, v)] := by
  induction acc with
  | nil => rfl
  | cons hd tl ih =>
    cases hd with
    | mk k' v' =>
      simp only [List.map_cons, List.mem_cons] at h
      push_neg at h
      have hne : ¬ (k' = k) := fun he => h.1 he.symm
      simp only [dictInsert, if_neg hne, List.cons_append, List.cons.injEq,
        true_and]
      exact ih h.2

/-- The per-field outcome that `validate_document`'s loop records for one
schema entry: the field's own `ValidationError` when a value is present
and invalid, `'field is required'` when absent but required, nothing
otherwise. -/
def fieldErrOpt (env : Env) (data : List (String × MValue)) (n : String)
    (f : FieldInfo) : Option VError :=
  match alookup data n with
  | some v =>
    match fieldValidate env f v with
    | .error (.vErr e) => some e
    | _ => none
  | none => if f.required then some (.leaf "field is required" none) else none

/-- All failing fields of a schema against a `_data` map, in schema order,
keyed by field name — one entry per failing field. -/
def collectFieldErrors (env : Env) (data : List (String × MValue))
    (schema : Schema) : List (EKey × VError) :=
  schema.filterMap
    (fun nf => (fieldErrOpt env data nf.1 nf.2).map (fun e => (.fk nf.1, e)))

theorem docValidateAux_collect (env : Env) (data : List (String × MValue)) :
    ∀ (schema : Schema) (acc : List (EKey × VError)),
      (schema.map Prod.fst).Nodup →
      (∀ n f v, (n, f) ∈ schema → alookup data n = some v →
        fieldValidate env f v = .ok () ∨
          ∃ e, fieldValidate env f v = .error (.vErr e)) →
      (∀ n, EKey.fk n ∈ acc.map Prod.fst → n ∉ schema.map Prod.fst) →
      docValidateAux env schema data acc =
        .ok (acc ++ collectFieldErrors env data schema) := by
  intro schema
  induction schema with
  | nil =>
    intro acc _ _ _
    rw [docValidateAux_nil]
    simp [collectFieldErrors]
  | cons hd rest ih =>
    intro acc hnodup hnoexc hacc
    cases hd with
    | mk n f =>
      simp only [List.map_cons, List.nodup_cons] at hnodup
      have hnoexc' : ∀ n' f' v, (n', f') ∈ rest → alookup data n' = some v →
          fieldValidate env f' v = .ok () ∨
            ∃ e, fieldValidate env f' v = .error (.vErr e) := by
        intro n' f' v hm hl
        exact hnoexc n' f' v (List.mem_cons_of_mem _ hm) hl
      have hknotin : EKey.fk n ∉ acc.map Prod.fst := by
        intro hmem
        exact (hacc n hmem) (List.mem_cons_self _ _)
      rw [docValidateAux_cons]
      cases hlook : alookup data n with
      | some v =>
        rcases hnoexc n f v (List.mem_cons_self _ _) hlook with hok | ⟨e, herr⟩
        · simp only [hok]
          rw [ih acc hnodup.2 hnoexc'
            (fun n' hmem hmem2 => (hacc n' hmem) (List.mem_cons_of_mem _ hmem2))]
          simp [collectFieldErrors, fieldErrOpt, hlook, hok]
        · simp only [herr]
          rw [dictInsert_append acc _ e hknotin]
          have hacc2 : ∀ n', EKey.fk n' ∈
              (acc ++ [(EKey.fk n, e)]).map Prod.fst →
              n' ∉ rest.map Prod.fst := by
            intro n' hmem hmem2
            simp only [List.map_append, List.mem_append, List.map_cons,
              List.map_nil] at hmem
            rcases hmem with hmem | hmem
            · exact (hacc n' hmem) (List.mem_cons_of_mem _ hmem2)
            · simp only [List.mem_singleton, EKey.fk.injEq] at hmem
              subst hmem
              exact hnodup.1 hmem2
          rw [ih (acc ++ [(EKey.fk n, e)]) hnodup.2 hnoexc' hacc2]
          simp [collectFieldErrors, fieldErrOpt, hlook, herr]
      | none =>
        cases hreq : f.required with
        | true =>
          simp only [hreq, if_true]
          rw [dictInsert_append acc _ _ hknotin]
          have hacc3 : ∀ n', EKey.fk n' ∈
              (acc ++ [(EKey.fk n, VError.leaf "field is required" none)]).map
                Prod.fst →
              n' ∉ rest.map Prod.fst := by
            intro n' hmem hmem2
            simp only [List.map_append, List.mem_append, List.map_cons,
              List.map_nil] at hmem
            rcases hmem with hmem | hmem
            · exact (hacc n' hmem) (List.mem_cons_of_mem _ hmem2)
            · simp only [List.mem_singleton, EKey.fk.injEq] at hmem
              subst hmem
              exact hnodup.1 hmem2
          rw [ih (acc ++ [(EKey.fk n, VError.leaf "field is required" none)])
            hnodup.2 hnoexc' hacc3]
          simp [collectFieldErrors, fieldErrOpt, hlook, hreq]
        | false =>
          simp only [hreq, if_false]
          rw [ih acc hnodup.2 hnoexc'
            (fun n' hmem hmem2 => (hacc n' hmem) (List.mem_cons_of_mem _ hmem2))]
          simp [collectFieldErrors, fieldErrOpt, hlook, hreq]

/-- C2: whole-document validation checks every schema field regardless of
earlier failures.  Provided the schema's field names are unique (they are
keys of `meta.fields`) and no per-field validation escapes with a
non-`ValidationError` exception, `validate_document` is characterised by
the per-field error list `collectFieldErrors`: one entry per failing
field, keyed by the field name, in schema order — an absent required
field contributes the leaf `'field is required'`, a present invalid field
contributes that field's own error — and it raises a single branch
`ValidationError` carrying exactly that list if and only if at least one
field fails, returning silently otherwise. -/
theorem c2_validate_document_aggregates (env : Env) (schema : Schema)
    (data : List (String × MValue))
    (hnodup : (schema.map Prod.fst).Nodup)
    (hnoexc : ∀ n f v, (n, f) ∈ schema → alookup data n = some v →
      fieldValidate env f v = .ok () ∨
        ∃ e, fieldValidate env f v = .error (.vErr e)) :
    (docValidate env schema data =
      match collectFieldErrors env data schema with
      | [] => .ok ()
      | errs => .error (.vErr (.branch errs))) ∧
    (docValidate env schema data = .ok () ↔
      collectFieldErrors env data schema = []) := by
  have haux := docValidateAux_collect env data schema [] hnodup hnoexc
    (by intro n h; simp at h)
  have hmain : docValidate env schema data =
      match collectFieldErrors env data schema with
      | [] => .ok ()
      | errs => .error (.vErr (.branch errs)) := by
    rw [docValidate.eq_def, haux]
    simp only [List.nil_append]
    cases collectFieldErrors env data schema with
    | nil => rfl
    | cons e es => rfl
  refine ⟨hmain, ?_⟩
  rw [hmain]
  cases collectFieldErrors env data schema with
  | nil => simp
  | cons e es => simp


/-- Concrete schema for the C2 witness: three fields that can all be
invalid at once. -/
def c2FieldA : FieldInfo :=
  .mk "a" (some "a") true false none none (.intK none none none none)

def c2FieldB : FieldInfo :=
  .mk "b" (some "b") true false none none (.strK none false none none)

def c2FieldC : FieldInfo :=
  .mk "c" (some "c") true false none none (.intK (some 10) none none none)

def c2Schema : Schema := [("a", c2FieldA), ("b", c2FieldB), ("c", c2FieldC)]

def c2Data : List (String × MValue) := [("a", .vstr "x"), ("c", .vint 5)]

theorem c2FieldA_invalid :
    fieldValidate [] c2FieldA (.vstr "x") =
      .error (.vErr (.leaf "invalid value type" none)) := by
  simp [fieldValidate, buildValidators, c2FieldA, FieldInfo.choices,
    FieldInfo.kind, runSteps, runStep, stepNone, stepType, typeOk,
    FieldInfo.allowNone]

theorem c2FieldC_invalid :
    fieldValidate [] c2FieldC (.vint 5) =
      .error (.vErr (.leaf "value is less than {constraint}"
        (some (.vint 10)))) := by
  norm_num [fieldValidate, buildValidators, c2FieldC, FieldInfo.choices,
    FieldInfo.kind, runSteps, runStep, stepNone, stepType,
    typeOk, FieldInfo.allowNone, stepGte, stepCmp, toQ]

/-- Witness for C2 at a concrete input: a document with three
simultaneously invalid fields (`a` has the wrong type, `b` is missing but
required, `c` violates its bound) raises one branch `ValidationError`
with exactly three entries, keyed by the three field names. -/
theorem c2_validate_document_aggregates_witness :
    docValidate [] c2Schema c2Data =
      .error (.vErr (.branch
        [(.fk "a", .leaf "invalid value type" none),
         (.fk "b", .leaf "field is required" none),
         (.fk "c", .leaf "value is less than {constraint}"
           (some (.vint 10)))])) := by
  have hnodup : ((c2Schema.map Prod.fst).Nodup) := by
    simp [c2Schema]
  have hnoexc : ∀ n f v, (n, f) ∈ c2Schema → alookup c2Data n = some v →
      fieldValidate [] f v = .ok () ∨
        ∃ e, fieldValidate [] f v = .error (.vErr e) := by
    intro n f v hmem hlook
    simp only [c2Schema, List.mem_cons, List.not_mem_nil, or_false,
      Prod.mk.injEq] at hmem
    rcases hmem with ⟨hn, hf⟩ | ⟨hn, hf⟩ | ⟨hn, hf⟩ <;> subst hn <;> subst hf
    · simp only [c2Data, alookup, if_pos rfl] at hlook
      · cases hlook
        exact Or.inr ⟨_, c2FieldA_invalid⟩
    · simp [c2Data, alookup] at hlook
    · simp only [c2Data, alookup] at hlook
      norm_num at hlook
      cases hlook
      exact Or.inr ⟨_, c2FieldC_invalid⟩
  have hcollect : collectFieldErrors [] c2Data c2Schema =
      [(.fk "a", .leaf "invalid value type" none),
       (.fk "b", .leaf "field is required" none),
       (.fk "c", .leaf "value is less than {constraint}"
         (some (.vint 10)))] := by
    simp only [collectFieldErrors, c2Schema, List.filterMap_cons,
      List.filterMap_nil, fieldErrOpt, c2Data, alookup]
    simp [c2FieldA_invalid, c2FieldC_invalid, c2FieldB, FieldInfo.required]
  have h := (c2_validate_document_aggregates [] c2Schema c2Data hnodup hnoexc).1
  rw [h, hcollect]


/-- The validator order asserted by the specification (stated for
refutation, from the spec's words, *not* from the source): null/absence
check first, then type check, then the kind-specific checks in
declaration order, and the choice-set check **last**. -/
def claimedValidators (f : FieldInfo) : List VStep :=
  let choicesPart : List VStep := if f.choices.isSome then [.vChoices] else []
  match f.kind with
  | .anyK => [.vNone] ++ choicesPart
  | .refK _ _ => [.vNone, .vRef] ++ choicesPart
  | .strK regex _ minL maxL =>
    [.vNone, .vType]
      ++ (if regex.isSome then [.vRegex] else [])
      ++ [.vBlank]
      ++ (match minL with
          | some m => if m ≠ 0 then [.vMinLength] else []
          | none => [])
      ++ (if maxL.isSome then [.vMaxLength] else [])
      ++ choicesPart
  | .intK gte lte gt lt =>
    [.vNone, .vType]
      ++ (if gte.isSome then [.vGte] else []) ++ (if lte.isSome then [.vLte] else [])
      ++ (if gt.isSome then [.vGt] else []) ++ (if lt.isSome then [.vLt] else [])
      ++ choicesPart
  | .floatK gte lte gt lt =>
    [.vNone, .vType]
      ++ (if gte.isSome then [.vGte] else []) ++ (if lte.isSome then [.vLte] else [])
      ++ (if gt.isSome then [.vGt] else []) ++ (if lt.isSome then [.vLt] else [])
      ++ choicesPart
  | .decK gte lte gt lt =>
    [.vNone, .vType]
      ++ (if gte.isSome then [.vGte] else []) ++ (if lte.isSome then [.vLte] else [])
      ++ (if gt.isSome then [.vGt] else []) ++ (if lt.isSome then [.vLt] else [])
      ++ choicesPart
  | .boolK => [.vNone, .vType] ++ choicesPart
  | .dtK => [.vNone, .vType] ++ choicesPart
  | .oidK => [.vNone, .vType] ++ choicesPart
  | .embK _ => [.vNone, .vType] ++ [.vEmbDoc] ++ choicesPart
  | .listK _ minL maxL =>
    [.vNone, .vType]
      ++ (if minL.isSome then [.vListMin] else [])
      ++ (if maxL.isSome then [.vListMax] else [])
      ++ [.vListItems]
      ++ choicesPart

/-- A `StrField(regex='^a', choices={'b'})`. -/
def c3Field : FieldInfo :=
  .mk "color" (some "color") true false (some [.vstr "b"]) none
    (.strK (some (.startsWithPat "a")) false none none)

/-- C3 counterexample: the claim puts the choice-set check *after* the
kind-specific checks; the code appends it in `Field.__init__`, i.e.
*before* them.  The orders differ observably: for
`StrField(regex='^a', choices={'b'})` and the value `"b"` (in the choice
set but failing the regex), the code's `validate` succeeds — the choices
validator raises `StopValidation` before the regex validator runs —
while the claimed order would fail with the regex error; and the built
validator list itself differs from the claimed one. -/
theorem c3_choices_position_counterexample :
    fieldValidate [] c3Field (.vstr "b") = .ok () ∧
    runSteps [] c3Field (claimedValidators c3Field) (.vstr "b") =
      .error (.vErr (.leaf "value does not match pattern {constraint}"
        (some (.vstr "^a")))) ∧
    buildValidators c3Field ≠ claimedValidators c3Field := by
  refine ⟨?_, ?_, ?_⟩
  · simp [fieldValidate, buildValidators, c3Field, FieldInfo.choices,
      FieldInfo.kind, runSteps, runStep, stepNone, stepType, stepChoices,
      typeOk, mvIn, mvBeq, FieldInfo.allowNone]
  · simp [claimedValidators, c3Field, FieldInfo.choices, FieldInfo.kind,
      runSteps, runStep, stepNone, stepType, stepRegex, typeOk,
      FieldInfo.allowNone, RegexSpec.rmatch, RegexSpec.pattern,
      strPrefixMatch]
  · simp [buildValidators, claimedValidators, c3Field, FieldInfo.choices,
      FieldInfo.kind]

/-- The kind-specific validators of each field class, in the order the
`__init__` chains append them. -/
def kindSpecificValidators (f : FieldInfo) : List VStep :=
  match f.kind with
  | .anyK => []
  | .refK _ _ => [.vRef]
  | .strK regex _ minL maxL =>
    (if regex.isSome then [.vRegex] else [])
      ++ [.vBlank]
      ++ (match minL with
          | some m => if m ≠ 0 then [.vMinLength] else []
          | none => [])
      ++ (if maxL.isSome then [.vMaxLength] else [])
  | .intK gte lte gt lt =>
    (if gte.isSome then [.vGte] else []) ++ (if lte.isSome then [.vLte] else [])
      ++ (if gt.isSome then [.vGt] else []) ++ (if lt.isSome then [.vLt] else [])
  | .floatK gte lte gt lt =>
    (if gte.isSome then [.vGte] else []) ++ (if lte.isSome then [.vLte] else [])
      ++ (if gt.isSome then [.vGt] else []) ++ (if lt.isSome then [.vLt] else [])
  | .decK gte lte gt lt =>
    (if gte.isSome then [.vGte] else []) ++ (if lte.isSome then [.vLte] else [])
      ++ (if gt.isSome then [.vGt] else []) ++ (if lt.isSome then [.vLt] else [])
  | .boolK => []
  | .dtK => []
  | .oidK => []
  | .embK _ => [.vEmbDoc]
  | .listK _ minL maxL =>
    (if minL.isSome then [.vListMin] else [])
      ++ (if maxL.isSome then [.vListMax] else [])
      ++ [.vListItems]

/-- The null/type prefix: every field starts with the null check;
all kinds except `AnyField` and `RefField` follow it with the type
check. -/
def nullTypePrefix (f : FieldInfo) : List VStep :=
  match f.kind with
  | .anyK => [.vNone]
  | .refK _ _ => [.vNone]
  | _ => [.vNone, .vType]

/-- The choices validator slot: present when `choices is not None`, except
for `RefField`, whose `__init__` rebuilds the validator list without it. -/
def choicesSlot (f : FieldInfo) : List VStep :=
  match f.kind with
  | .refK _ _ => []
  | _ => if f.choices.isSome then [.vChoices] else []

/-- C3 amended: the pipeline order is null/absence check → type check
(where the kind has one — `AnyField` and `RefField` have none) → the
choice-set check immediately **after** the type check when a choice set is
present (not last; `RefField` drops it entirely) → the kind-specific
checks in declaration order.  A stop signal short-circuits all remaining
validators without failing, and the choices validator never passes — it
either stops or fails — so when a choice set is present every
kind-specific check is bypassed and validation is decided by choice
membership alone. -/
theorem c3_validator_order_amended (env : Env) (f : FieldInfo) (v : MValue) :
    (buildValidators f =
      nullTypePrefix f ++ choicesSlot f ++ kindSpecificValidators f) ∧
    (∀ s rest, runStep env f s v = .stopS →
      runSteps env f (s :: rest) v = .ok ()) ∧
    (runStep env f .vChoices v ≠ .passS) ∧
    (∀ cs, f.choices = some cs → (∀ cls idf, f.kind ≠ .refK cls idf) →
      runStep env f .vNone v = .passS →
      runStep env f .vType v = .passS →
      fieldValidate env f v =
        (if mvIn v cs then .ok ()
         else .error (.vErr (.leaf "value does not match any variant" none)))) := by
  refine ⟨?_, ?_, ?_, ?_⟩
  · cases hk : f.kind <;>
      simp [buildValidators, nullTypePrefix, choicesSlot,
        kindSpecificValidators, hk]
  · intro s rest hstop
    rw [runSteps.eq_def]
    simp [hstop]
  · intro hpass
    rw [runStep.eq_def] at hpass
    simp only [stepChoices] at hpass
    cases hc : f.choices with
    | none => rw [hc] at hpass; simp at hpass
    | some cs =>
      rw [hc] at hpass
      by_cases hin : mvIn v cs = true <;> simp [hin] at hpass
  · intro cs hcs hnref hnone htype
    have hdecomp : buildValidators f =
        nullTypePrefix f ++ choicesSlot f ++ kindSpecificValidators f := by
      cases hk : f.kind <;>
        simp [buildValidators, nullTypePrefix, choicesSlot,
          kindSpecificValidators, hk]
    have hchoices : choicesSlot f = [.vChoices] := by
      cases hk : f.kind <;>
        simp [choicesSlot, hk, hcs] <;>
        exact absurd hk (by intro h; exact hnref _ _ h)
    have hprefix : nullTypePrefix f = [.vNone] ∨
        nullTypePrefix f = [.vNone, .vType] := by
      cases hk : f.kind <;> simp [nullTypePrefix, hk]
    rw [fieldValidate.eq_def, hdecomp, hchoices]
    have hstep : runStep env f .vChoices v =
        (if mvIn v cs then StepR.stopS
         else .errS (.vErr (.leaf "value does not match any variant" none))) := by
      rw [runStep.eq_def]
      simp [stepChoices, hcs]
    rcases hprefix with hp | hp <;> rw [hp] <;>
      simp only [List.cons_append, List.nil_append, List.singleton_append] <;>
      rw [runSteps.eq_def] <;>
      simp only [hnone] <;>
      (try (rw [runSteps.eq_def]; simp only [htype])) <;>
      rw [runSteps.eq_def] <;>
      simp only [hstep] <;>
      (by_cases hin : mvIn v cs = true) <;>
      simp [hin]

/-- Witness for C3 amended at a concrete input: for the
`StrField(regex='^a', choices={'b'})` above and the in-choices value
`"b"`, the bypass clause decides validation by choice membership, so it
succeeds even though the regex would reject it. -/
theorem c3_validator_order_amended_witness :
    fieldValidate [] c3Field (.vstr "b") =
      (if mvIn (.vstr "b") [.vstr "b"] then Except.ok ()
       else .error (.vErr (.leaf "value does not match any variant" none))) :=
  (c3_validator_order_amended [] c3Field (.vstr "b")).2.2.2 [.vstr "b"] rfl
    (by intro cls idf h; simp [c3Field, FieldInfo.kind] at h)
    (by simp [runStep, stepNone, c3Field, FieldInfo.allowNone])
    (by simp [runStep, stepType, typeOk, c3Field, FieldInfo.kind])


theorem runSteps_cons_pass (env : Env) (f : FieldInfo) (s : VStep)
    (rest : List VStep) (v : MValue) (h : runStep env f s v = .passS) :
    runSteps env f (s :: rest) v = runSteps env f rest v := by
  rw [runSteps.eq_def]
  simp [h]

theorem runSteps_cons_stop (env : Env) (f : FieldInfo) (s : VStep)
    (rest : List VStep) (v : MValue) (h : runStep env f s v = .stopS) :
    runSteps env f (s :: rest) v = .ok () := by
  rw [runSteps.eq_def]
  simp [h]

theorem runSteps_cons_err (env : Env) (f : FieldInfo) (s : VStep)
    (rest : List VStep) (v : MValue) (e : PyExc)
    (h : runStep env f s v = .errS e) :
    runSteps env f (s :: rest) v = .error e := by
  rw [runSteps.eq_def]
  simp [h]

/-- The per-index error list produced by `ListField._validate_items`'s
loop: one entry, keyed by the element's index, for every failing
element. -/
def elementErrorList (env : Env) (item : FieldInfo) (xs : List MValue)
    (i : Nat) : List (EKey × VError) :=
  (List.enumFrom i xs).filterMap
    (fun p =>
      match fieldValidate env item p.2 with
      | .error (.vErr e) => some (.ix p.1, e)
      | _ => none)

theorem collectItemErrors_characterisation (env : Env) (item : FieldInfo) :
    ∀ (xs : List MValue) (i : Nat),
      (∀ x, x ∈ xs → fieldValidate env item x = .ok () ∨
        ∃ e, fieldValidate env item x = .error (.vErr e)) →
      collectItemErrors env item xs i = .ok (elementErrorList env item xs i) := by
  intro xs
  induction xs with
  | nil =>
    intro i _
    rw [collectItemErrors.eq_def]
    simp [elementErrorList]
  | cons x rest ih =>
    intro i hnoexc
    have hrest : ∀ y, y ∈ rest → fieldValidate env item y = .ok () ∨
        ∃ e, fieldValidate env item y = .error (.vErr e) :=
      fun y hy => hnoexc y (List.mem_cons_of_mem _ hy)
    rw [collectItemErrors.eq_def]
    rcases hnoexc x (List.mem_cons_self _ _) with hok | ⟨e, herr⟩
    · simp only [hok]
      rw [ih (i + 1) hrest]
      simp [elementErrorList, List.enumFrom, hok]
    · simp only [herr]
      rw [ih (i + 1) hrest]
      simp [elementErrorList, List.enumFrom, herr]


/-- C5: `ListField` validation.  For every list field (no choice set, so
the length validators are reachable):

* a too-short list fails with the leaf
  `'list length is less than {constraint}'` carrying the `min_length`
  bound (rendered `'list length is less than {min}'`),
* a too-long list (when the minimum, if any, is satisfied) fails with the
  leaf `'list length is greater than {constraint}'` carrying the
  `max_length` bound,
* when both length bounds pass, **every** element is validated — a
  failing element does not stop the remaining ones — and the failures are
  collected into a single branch error keyed by element index
  (`elementErrorList` has one entry per failing index, over all
  elements). -/
theorem c5_list_field_validation (env : Env) (f : FieldInfo)
    (item : FieldInfo) (minLo maxLo : Option Nat) (xs : List MValue)
    (hkind : f.kind = .listK item minLo maxLo) (hch : f.choices = none) :
    (∀ m, minLo = some m → xs.length < m →
      fieldValidate env f (.vlist xs) =
        .error (.vErr (.leaf "list length is less than {constraint}"
          (some (.vint m))))) ∧
    (∀ M, maxLo = some M → (∀ m, minLo = some m → m ≤ xs.length) →
      M < xs.length →
      fieldValidate env f (.vlist xs) =
        .error (.vErr (.leaf "list length is greater than {constraint}"
          (some (.vint M))))) ∧
    ((∀ m, minLo = some m → m ≤ xs.length) →
      (∀ M, maxLo = some M → xs.length ≤ M) →
      (∀ x, x ∈ xs → fieldValidate env item x = .ok () ∨
        ∃ e, fieldValidate env item x = .error (.vErr e)) →
      fieldValidate env f (.vlist xs) =
        (match elementErrorList env item xs 0 with
         | [] => .ok ()
         | errs => .error (.vErr (.branch errs)))) := by
  have hnonePass : runStep env f .vNone (.vlist xs) = .passS := by
    simp [runStep, stepNone]
  have htypePass : runStep env f .vType (.vlist xs) = .passS := by
    simp [runStep, stepType, typeOk, hkind]
  refine ⟨?_, ?_, ?_⟩
  · rintro m rfl hlt
    rw [fieldValidate.eq_def]
    have h1 : buildValidators f =
        .vNone :: .vType :: .vListMin ::
          ((if maxLo.isSome then [.vListMax] else []) ++ [.vListItems]) := by
      simp [buildValidators, hkind, hch]
    rw [h1, runSteps_cons_pass _ _ _ _ _ hnonePass,
      runSteps_cons_pass _ _ _ _ _ htypePass]
    exact runSteps_cons_err _ _ _ _ _ _
      (by simp [runStep, stepListMin, hkind, hlt])

  · rintro M rfl hminle hgt
    rw [fieldValidate.eq_def]
    cases hmin : minLo with
    | none =>
      have h1 : buildValidators f =
          .vNone :: .vType :: .vListMax :: [.vListItems] := by
        simp [buildValidators, hkind, hch, hmin]
      rw [h1, runSteps_cons_pass _ _ _ _ _ hnonePass,
        runSteps_cons_pass _ _ _ _ _ htypePass]
      exact runSteps_cons_err _ _ _ _ _ _
        (by simp [runStep, stepListMax, hkind, hmin, hgt])
    | some m =>
      have h1 : buildValidators f =
          .vNone :: .vType :: .vListMin :: .vListMax :: [.vListItems] := by
        simp [buildValidators, hkind, hch, hmin]
      have hmle := hminle m hmin
      rw [h1, runSteps_cons_pass _ _ _ _ _ hnonePass,
        runSteps_cons_pass _ _ _ _ _ htypePass,
        runSteps_cons_pass _ _ _ _ _
          (by simp [runStep, stepListMin, hkind, hmin, Nat.not_lt.mpr hmle])]
      exact runSteps_cons_err _ _ _ _ _ _
        (by simp [runStep, stepListMax, hkind, hmin, hgt])
  · intro hminle hmaxle hnoexc
    rw [fieldValidate.eq_def]
    have hitems : runSteps env f [.vListItems] (.vlist xs) =
        (match elementErrorList env item xs 0 with
         | [] => .ok ()
         | errs => .error (.vErr (.branch errs))) := by
      have hcoll := collectItemErrors_characterisation env item xs 0 hnoexc
      cases helem : elementErrorList env item xs 0 with
      | nil =>
        rw [helem] at hcoll
        rw [runSteps_cons_pass _ _ _ _ _
          (by rw [runStep.eq_def]; simp [hkind, hcoll]), runSteps.eq_def]
      | cons e es =>
        rw [helem] at hcoll
        exact runSteps_cons_err _ _ _ _ _ _
          (by rw [runStep.eq_def]; simp [hkind, hcoll])
    cases hmin : minLo with
    | none =>
      cases hmax : maxLo with
      | none =>
        have h1 : buildValidators f = .vNone :: .vType :: [.vListItems] := by
          simp [buildValidators, hkind, hch, hmin, hmax]
        rw [h1, runSteps_cons_pass _ _ _ _ _ hnonePass,
          runSteps_cons_pass _ _ _ _ _ htypePass, hitems]
      | some M =>
        have h1 : buildValidators f =
            .vNone :: .vType :: .vListMax :: [.vListItems] := by
          simp [buildValidators, hkind, hch, hmin, hmax]
        have hMle := hmaxle M hmax
        rw [h1, runSteps_cons_pass _ _ _ _ _ hnonePass,
          runSteps_cons_pass _ _ _ _ _ htypePass,
          runSteps_cons_pass _ _ _ _ _
            (by simp [runStep, stepListMax, hkind, hmin, hmax, Nat.not_lt.mpr hMle]),
          hitems]
    | some m =>
      have hmle := hminle m hmin
      cases hmax : maxLo with
      | none =>
        have h1 : buildValidators f =
            .vNone :: .vType :: .vListMin :: [.vListItems] := by
          simp [buildValidators, hkind, hch, hmin, hmax]
        rw [h1, runSteps_cons_pass _ _ _ _ _ hnonePass,
          runSteps_cons_pass _ _ _ _ _ htypePass,
          runSteps_cons_pass _ _ _ _ _
            (by simp [runStep, stepListMin, hkind, hmin, Nat.not_lt.mpr hmle]),
          hitems]
      | some M =>
        have hMle := hmaxle M hmax
        have h1 : buildValidators f =
            .vNone :: .vType :: .vListMin :: .vListMax :: [.vListItems] := by
          simp [buildValidators, hkind, hch, hmin, hmax]
        rw [h1, runSteps_cons_pass _ _ _ _ _ hnonePass,
          runSteps_cons_pass _ _ _ _ _ htypePass,
          runSteps_cons_pass _ _ _ _ _
            (by simp [runStep, stepListMin, hkind, hmin, Nat.not_lt.mpr hmle]),
          runSteps_cons_pass _ _ _ _ _
            (by simp [runStep, stepListMax, hkind, hmin, hmax, Nat.not_lt.mpr hMle]),
          hitems]


/-- `ListField(IntField(), min_length=1, max_length=3)` for the C5
witness. -/
def c5Item : FieldInfo :=
  .mk "" none true false none none (.intK none none none none)

def c5Field : FieldInfo :=
  .mk "tags" (some "tags") true false none none
    (.listK c5Item (some 1) (some 3))

theorem c5Item_ok : fieldValidate [] c5Item (.vint 1) = .ok () := by
  simp [fieldValidate, buildValidators, c5Item, FieldInfo.choices,
    FieldInfo.kind, runSteps, runStep, stepNone, stepType, typeOk,
    FieldInfo.allowNone]

theorem c5Item_bad :
    fieldValidate [] c5Item (.vstr "x") =
      .error (.vErr (.leaf "invalid value type" none)) := by
  simp [fieldValidate, buildValidators, c5Item, FieldInfo.choices,
    FieldInfo.kind, runSteps, runStep, stepNone, stepType, typeOk,
    FieldInfo.allowNone]

/-- Witness for C5 at concrete inputs: `ListField(min=1, max=3)` over an
`IntField` — `[]` fails with the min-length leaf (constraint `1`),
`[1,2,3,4]` with the max-length leaf (constraint `3`), and
`[valid, invalid]` with a branch holding exactly `{1: element error}`. -/
theorem c5_list_field_validation_witness :
    fieldValidate [] c5Field (.vlist []) =
      .error (.vErr (.leaf "list length is less than {constraint}"
        (some (.vint 1)))) ∧
    fieldValidate [] c5Field (.vlist [.vint 1, .vint 2, .vint 3, .vint 4]) =
      .error (.vErr (.leaf "list length is greater than {constraint}"
        (some (.vint 3)))) ∧
    fieldValidate [] c5Field (.vlist [.vint 1, .vstr "x"]) =
      .error (.vErr (.branch [(.ix 1, .leaf "invalid value type" none)])) := by
  have hkind : c5Field.kind = .listK c5Item (some 1) (some 3) := by
    simp [c5Field, FieldInfo.kind]
  have hch : c5Field.choices = none := by
    simp [c5Field, FieldInfo.choices]
  refine ⟨?_, ?_, ?_⟩
  · exact (c5_list_field_validation [] c5Field c5Item (some 1) (some 3) []
      hkind hch).1 1 rfl (by simp)
  · refine (c5_list_field_validation [] c5Field c5Item (some 1) (some 3)
      [.vint 1, .vint 2, .vint 3, .vint 4] hkind hch).2.1 3 rfl ?_ (by simp)
    intro m hm
    cases hm
    simp
  · have hnoexc : ∀ x, x ∈ [MValue.vint 1, MValue.vstr "x"] →
        fieldValidate [] c5Item x = .ok () ∨
          ∃ e, fieldValidate [] c5Item x = .error (.vErr e) := by
      intro x hx
      simp only [List.mem_cons, List.not_mem_nil, or_false] at hx
      rcases hx with rfl | rfl
      · exact Or.inl c5Item_ok
      · exact Or.inr ⟨_, c5Item_bad⟩
    have h := (c5_list_field_validation [] c5Field c5Item (some 1) (some 3)
      [.vint 1, .vstr "x"] hkind hch).2.2
      (by intro m hm; cases hm; simp) (by intro M hM; cases hM; simp) hnoexc
    have heval : elementErrorList [] c5Item [.vint 1, .vstr "x"] 0 =
        [(.ix 1, .leaf "invalid value type" none)] := by
      simp [elementErrorList, List.enumFrom, c5Item_ok, c5Item_bad]
    rw [h, heval]


/-- One entry of a class body namespace (`cls.__dict__`), as inspected by
`BaseDocumentMeta._get_fields` (`document.py` lines 124-131). -/
inductive NsItem where
  | nsField (f : FieldInfo)
  | nsSynonym (orig : String)
  | nsOther

/-- A Python class: name, base list (as written in the class statement),
and class body namespace in declaration order. -/
structure PyClass where
  cname : String
  bases : List String
  ns : List (String × NsItem)

abbrev ClassWorld := List PyClass

def findClass (w : ClassWorld) (n : String) : Option PyClass :=
  match w with
  | [] => none
  | c :: rest => if c.cname = n then some c else findClass rest n

/-- One candidate check of the C3 linearization merge: a head is good when
it appears in no tail. -/
def goodHead (lists : List (List String)) (h : String) : Bool :=
  lists.all (fun l =>
    match l with
    | [] => true
    | _ :: tl => !(tl.contains h))

/-- Find the first list whose head is a good candidate. -/
def pickHead (all : List (List String)) : List (List String) → Option String
  | [] => none
  | [] :: rest => pickHead all rest
  | (h :: _) :: rest => if goodHead all h then some h else pickHead all rest

/-- Remove `h` from the front of a list when it is the head (after a good
pick, `h` can only occur as a head). -/
def removeHead (h : String) (l : List String) : List String :=
  match l with
  | [] => []
  | x :: rest => if x = h then rest else x :: rest

/-- The C3 merge of Python's MRO computation (fuel-bounded; `none` models
an inconsistent hierarchy, where Python raises `TypeError`). -/
def c3merge : Nat → List (List String) → Option (List String)
  | 0, _ => none
  | fuel + 1, lists =>
    if lists.all List.isEmpty then some []
    else
      match pickHead lists lists with
      | some h =>
        match c3merge fuel (lists.map (removeHead h)) with
        | some tailm => some (h :: tailm)
        | none => none
      | none => none

/-- Python MROs of a list of classes: `L(C) = C :: merge(L(B1), ...,
L(Bn), [B1, ..., Bn])` (fuel-bounded so that the definition is structural
and computable). -/
def mroAll (w : ClassWorld) : Nat → List String → Option (List (List String))
  | 0, _ => none
  | _ + 1, [] => some []
  | fuel + 1, n :: rest =>
    match findClass w n with
    | none => none
    | some c =>
      match mroAll w fuel c.bases, mroAll w fuel rest with
      | some bls, some rls =>
        match c3merge fuel (bls ++ [c.bases]) with
        | some merged => some ((n :: merged) :: rls)
        | none => none
      | _, _ => none

def mro (w : ClassWorld) (fuel : Nat) (n : String) : Option (List String) :=
  match mroAll w fuel [n] with
  | some [l] => some l
  | _ => none


/-- The classes whose bodies hold no document fields, skipped by
`BaseDocumentMeta._get_fields` (`document.py` lines 118-119). -/
def ignoreBases : List String := ["object", "BaseDocument", "Document", "EmbeddedDocument"]

/-- One step of the `for name, item in ns.items()` loop of `_get_fields`
(`document.py` lines 124-131): a `Field` gets its name assigned when
unset and is written into the fields dict; a `SynonymField` is recorded;
anything else is ignored. -/
def insertNsItem (fs : Schema) (syns : List (String × String)) (nm : String)
    (it : NsItem) : Schema × List (String × String) :=
  match it with
  | .nsField f => (dictInsert fs nm (setFieldName nm f), syns)
  | .nsSynonym orig => (fs, dictInsert syns orig nm)
  | .nsOther => (fs, syns)

def foldNs (fs : Schema) (syns : List (String × String)) :
    List (String × NsItem) → Schema × List (String × String)
  | [] => (fs, syns)
  | (nm, it) :: rest =>
    let p := insertNsItem fs syns nm it
    foldNs p.1 p.2 rest

/-- The outer loop of `_get_fields` over the namespaces of
`reversed(new_class.__mro__)` (most-base first): later (more specific)
declarations overwrite earlier ones in the ordered dict. -/
def foldClasses (fs : Schema) (syns : List (String × String)) :
    List (List (String × NsItem)) → Schema × List (String × String)
  | [] => (fs, syns)
  | ns :: rest =>
    let p := foldNs fs syns ns
    foldClasses p.1 p.2 rest

/-- `BaseDocumentMeta._get_fields` (`document.py` lines 108-134): walk
`reversed(__mro__)` minus the field-less base classes, collecting fields
and synonyms. -/
def getFieldsBase (w : ClassWorld) (fuel : Nat) (n : String) :
    Option (Schema × List (String × String)) :=
  match mro w fuel n with
  | none => none
  | some m =>
    some (foldClasses [] []
      ((m.reverse.filter (fun c => !(ignoreBases.contains c))).filterMap
        (fun c => (findClass w c).map PyClass.ns)))

/-- `DocumentMeta.default_id_field` (`document.py` lines 166-167):
`ObjectIdField(name='_id', required=True, default=lambda: ObjectId())`.
The generator returns a fresh ObjectId on each call; the model stands in
a fixed one, which no claim observes. -/
def default_id_field : FieldInfo :=
  .mk "_id" (some "_id") true false none (some (.vfuncReturns (.voidv ""))) .oidK

/-- `DocumentMeta._get_fields` (`document.py` lines 169-184): add the
default `_id` field when absent; a present non-required `_id` raises
`ValueError`. -/
def documentGetFields (w : ClassWorld) (fuel : Nat) (n : String) :
    Option (Except PyExc (Schema × List (String × String))) :=
  match getFieldsBase w fuel n with
  | none => none
  | some (fs, syns) =>
    some (match alookup fs "_id" with
      | none => .ok (dictInsert fs "_id" default_id_field, syns)
      | some idf =>
        if idf.required then .ok (fs, syns)
        else .error (.otherExc "ValueError: _id field should be required"))

/-- The declaration that `nm` has in one class namespace, if it is a
field declaration (namespace keys are dict keys, hence unique). -/
def declOf (ns : List (String × NsItem)) (nm : String) : Option FieldInfo :=
  match alookup ns nm with
  | some (.nsField f) => some f
  | _ => none

/-- The most specific field declaration of `nm` in a namespace sequence
given base-most first: the last namespace declaring `nm` wins. -/
def lastFieldDecl (nss : List (List (String × NsItem))) (nm : String) :
    Option FieldInfo :=
  nss.reverse.findSome? (fun ns => declOf ns nm)

theorem foldNs_fields_lookup (nm : String) :
    ∀ (ns : List (String × NsItem)) (fs : Schema)
      (syns : List (String × String)),
      (ns.map Prod.fst).Nodup →
      alookup (foldNs fs syns ns).1 nm =
        (match declOf ns nm with
         | some f => some (setFieldName nm f)
         | none => alookup fs nm) := by
  intro ns
  induction ns with
  | nil =>
    intro fs syns _
    simp [foldNs, declOf, alookup]
  | cons hd rest ih =>
    intro fs syns hnodup
    cases hd with
    | mk nm' it =>
      simp only [List.map_cons, List.nodup_cons] at hnodup
      rw [foldNs]
      by_cases heq : nm' = nm
      · subst heq
        have hnotin : declOf rest nm' = none := by
          cases hd : alookup rest nm' with
          | none => simp [declOf, hd]
          | some it2 => exact absurd (alookup_mem_keys hd) hnodup.1
        rw [ih _ _ hnodup.2, hnotin]
        cases it with
        | nsField f =>
          simp [insertNsItem, declOf, alookup, alookup_dictInsert_self]
        | nsSynonym orig =>
          simp [insertNsItem, declOf, alookup]
        | nsOther =>
          simp [insertNsItem, declOf, alookup]
      · rw [ih _ _ hnodup.2]
        have hdecl : declOf ((nm', it) :: rest) nm = declOf rest nm := by
          simp [declOf, alookup, heq]
        rw [hdecl]
        cases hdo : declOf rest nm with
        | some f => simp
        | none =>
          cases it with
          | nsField f =>
            simp [insertNsItem, alookup_dictInsert_ne _ _ _ _ heq]
          | nsSynonym orig => simp [insertNsItem]
          | nsOther => simp [insertNsItem]


theorem findSome?_append {α β : Type} (l1 l2 : List α) (g : α → Option β) :
    (l1 ++ l2).findSome? g =
      (match l1.findSome? g with
       | some b => some b
       | none => l2.findSome? g) := by
  induction l1 with
  | nil => simp
  | cons a as ih =>
    simp only [List.cons_append, List.findSome?]
    cases g a with
    | some b => simp
    | none => simp [ih]

theorem foldClasses_fields_lookup (nm : String) :
    ∀ (nss : List (List (String × NsItem))) (fs : Schema)
      (syns : List (String × String)),
      (∀ ns, ns ∈ nss → (ns.map Prod.fst).Nodup) →
      alookup (foldClasses fs syns nss).1 nm =
        (match lastFieldDecl nss nm with
         | some f => some (setFieldName nm f)
         | none => alookup fs nm) := by
  intro nss
  induction nss with
  | nil =>
    intro fs syns _
    simp [foldClasses, lastFieldDecl]
  | cons ns rest ih =>
    intro fs syns hnodup
    rw [foldClasses]
    rw [ih _ _ (fun n hn => hnodup n (List.mem_cons_of_mem _ hn))]
    have hlast : lastFieldDecl (ns :: rest) nm =
        (match lastFieldDecl rest nm with
         | some f => some f
         | none => declOf ns nm) := by
      simp only [lastFieldDecl, List.reverse_cons, findSome?_append,
        List.findSome?]
      cases List.findSome? (fun n2 => declOf n2 nm) rest.reverse with
      | some f => simp
      | none =>
        simp only []
        cases declOf ns nm <;> simp
    rw [hlast]
    cases hl : lastFieldDecl rest nm with
    | some f => simp
    | none =>
      simp only []
      rw [foldNs_fields_lookup nm ns _ _ (hnodup ns (List.mem_cons_self _ _))]

/-- The fields of the C4 diamond: `Root` declares `value: Int`; `A(Root)`
overrides `value: Float` and adds `name: Str`; `B(Root)` overrides
`value: Int` and adds `slug: Str`; `C(A, B)` declares nothing. -/
def c4RootValue : FieldInfo :=
  .mk "" none true false none none (.intK none none none none)

def c4AValue : FieldInfo :=
  .mk "" none true false none none (.floatK none none none none)

def c4AName : FieldInfo :=
  .mk "" none true false none none (.strK none false none none)

def c4BValue : FieldInfo :=
  .mk "" none true false none none (.intK none none none none)

def c4BSlug : FieldInfo :=
  .mk "" none true false none none (.strK none false none none)

def c4World : ClassWorld :=
  [⟨"object", [], []⟩,
   ⟨"BaseDocument", ["object"], []⟩,
   ⟨"Document", ["BaseDocument"], []⟩,
   ⟨"Root", ["Document"], [("value", .nsField c4RootValue)]⟩,
   ⟨"A", ["Root"], [("value", .nsField c4AValue), ("name", .nsField c4AName)]⟩,
   ⟨"B", ["Root"], [("value", .nsField c4BValue), ("slug", .nsField c4BSlug)]⟩,
   ⟨"C", ["A", "B"], []⟩]

/-- C4: field aggregation is deterministic and follows Python's C3
linearization, base-most first, so the most specific declaration of a
same-named field wins.

* General clause: walking any namespace sequence base-most first, the
  aggregated entry for a name is exactly the *last* (most specific)
  namespace's declaration of that name (with the metaclass's name
  assignment applied).
* Concrete clauses: for the diamond `Root` / `A(Root)` / `B(Root)` /
  `C(A, B)`, Python's MRO of `C` is `[C, A, B, Root, ...]`, and the
  aggregated schema of `C` is exactly `value` (the `Float` field declared
  by `A` — most specific per linearization, since `A` precedes `B`),
  `slug`, `name`, plus the synthesized `_id` identity field. -/
theorem c4_aggregation_follows_mro :
    (∀ (nss : List (List (String × NsItem))) (fs : Schema)
      (syns : List (String × String)) (nm : String),
      (∀ ns, ns ∈ nss → (ns.map Prod.fst).Nodup) →
      alookup (foldClasses fs syns nss).1 nm =
        (match lastFieldDecl nss nm with
         | some f => some (setFieldName nm f)
         | none => alookup fs nm)) ∧
    mro c4World 10 "C" =
      some ["C", "A", "B", "Root", "Document", "BaseDocument", "object"] ∧
    documentGetFields c4World 10 "C" =
      some (.ok
        ([("value", setFieldName "value" c4AValue),
          ("slug", setFieldName "slug" c4BSlug),
          ("name", setFieldName "name" c4AName),
          ("_id", default_id_field)], [])) := by
  refine ⟨fun nss fs syns nm h => foldClasses_fields_lookup nm nss fs syns h,
    ?_, ?_⟩
  · rfl
  · rfl

/-- Witness for C4's general clause at the concrete diamond: the
namespace walk of `C` (base-most first: `Root`, `B`, `A`, `C`) aggregates
`value` to `A`'s declaration. -/
theorem c4_aggregation_follows_mro_witness :
    alookup (foldClasses [] []
        [[("value", NsItem.nsField c4RootValue)],
         [("value", NsItem.nsField c4BValue), ("slug", NsItem.nsField c4BSlug)],
         [("value", NsItem.nsField c4AValue), ("name", NsItem.nsField c4AName)],
         []]).1 "value" =
      (match lastFieldDecl
          [[("value", NsItem.nsField c4RootValue)],
           [("value", NsItem.nsField c4BValue), ("slug", NsItem.nsField c4BSlug)],
           [("value", NsItem.nsField c4AValue), ("name", NsItem.nsField c4AName)],
           []] "value" with
       | some f => some (setFieldName "value" f)
       | none => alookup [] "value") :=
  c4_aggregation_follows_mro.1
    [[("value", .nsField c4RootValue)],
     [("value", .nsField c4BValue), ("slug", .nsField c4BSlug)],
     [("value", .nsField c4AValue), ("name", .nsField c4AName)],
     []] [] [] "value"
    (by
      intro ns hns
      simp only [List.mem_cons, List.not_mem_nil, or_false] at hns
      rcases hns with rfl | rfl | rfl | rfl <;> decide)


/-- What `importlib` can deliver: absolute import path → class (a class
is identified by its name, i.e. its key in the `Env`). -/
abbrev ImportWorld := List (String × String)

/-- `utils.import_class` (`utils.py` lines 22-62) together with its
process-wide `CLASSES_CACHE`: a cached path is returned as is; otherwise
the class is imported and cached **only on success** — an `ImportError`
leaves the cache untouched. -/
def importClass (world : ImportWorld) (cache : List (String × String))
    (path : String) : Except PyExc String × List (String × String) :=
  match alookup cache path with
  | some c => (.ok c, cache)
  | none =>
    match alookup world path with
    | some c => (.ok c, dictInsert cache path c)
    | none => (.error (.impErr "No class named"), cache)

/-- `CompoundField._document_class`: either a still-unresolved qualified
name string, an already-resolved class, or Python `None` (a `ListField`
whose items are not embedded documents). -/
inductive DCState where
  | dcStr (path : String)
  | dcCls (c : String)
  | dcNone
deriving DecidableEq

/-- The `CompoundField.document_class` property (`fields.py` lines
426-436).  The crucial order of operations is the source's:
`self._document_class = import_class(...)` runs **before** the
`issubclass` check, so a wrong-category resolution is stored on the field
even though the property then raises `TypeError`; a failed import leaves
the stored string (and the import cache) unchanged.  `issubclass(c,
base)` is the category comparison against the `Env` (a name that is not a
document class at all also raises `TypeError`). -/
def documentClass (env : Env) (world : ImportWorld) (base : Cat)
    (st : DCState) (cache : List (String × String)) :
    Except PyExc (Option String) × DCState × List (String × String) :=
  match st with
  | .dcStr path =>
    match importClass world cache path with
    | (.ok c, cache2) =>
      match alookup env c with
      | some ci =>
        if ci.cat = base then (.ok (some c), .dcCls c, cache2)
        else (.error (.tyErr "document_class should be a subclass"),
          .dcCls c, cache2)
      | none => (.error (.tyErr "document_class should be a subclass"),
          .dcCls c, cache2)
    | (.error e, cache2) => (.error e, .dcStr path, cache2)
  | .dcCls c => (.ok (some c), .dcCls c, cache)
  | .dcNone => (.ok none, .dcNone, cache)

/-- The environment for the C6 counterexample: `R` is a top-level
`Document` subclass, importable as `"pkg.R"`, but the field expects an
`EmbeddedDocument` (the `EmbDocField('test_fields.RefDoc')` shape of the
test suite). -/
def c6Env : Env := [("R", ⟨.topDoc, [], []⟩)]

def c6World : ImportWorld := [("pkg.R", "R")]

/-- C6 counterexample: resolving a string-qualified target to a class of
the wrong category raises `TypeError` — but, contrary to the claim, the
failure *is* cached: the resolved class is stored on the field before the
category check, so the second access raises nothing and silently returns
the wrong-category class. -/
theorem c6_wrong_category_cached_counterexample :
    documentClass c6Env c6World .embDoc (.dcStr "pkg.R") [] =
      (.error (.tyErr "document_class should be a subclass"),
        .dcCls "R", [("pkg.R", "R")]) ∧
    documentClass c6Env c6World .embDoc (.dcCls "R") [("pkg.R", "R")] =
      (.ok (some "R"), .dcCls "R", [("pkg.R", "R")]) :=
  ⟨rfl, rfl⟩

/-- C6 amended: only *unknown-name* failures are uncached — an
`ImportError` leaves both the field's stored string and the process-wide
cache of imports unchanged, so every later access retries the import from
scratch, raises again while the name stays unavailable, and succeeds once
the name becomes importable as a class of the expected category.  A
*wrong-category* resolution, however, raises `TypeError` only on the
first access: the resolved class is stored before the check, and every
later access silently returns the wrong-category class without
re-checking. -/
theorem c6_resolution_caching_amended (env : Env) (world world2 : ImportWorld)
    (base : Cat) (path : String) (cache : List (String × String))
    (hnocache : alookup cache path = none)
    (hmiss : alookup world path = none) :
    (documentClass env world base (.dcStr path) cache =
      (.error (.impErr "No class named"), .dcStr path, cache)) ∧
    (∀ c ci, alookup world2 path = some c → alookup env c = some ci →
      ci.cat = base →
      documentClass env world2 base (.dcStr path) cache =
        (.ok (some c), .dcCls c, dictInsert cache path c)) ∧
    (∀ c ci, alookup world2 path = some c → alookup env c = some ci →
      ci.cat ≠ base →
      documentClass env world2 base (.dcStr path) cache =
        (.error (.tyErr "document_class should be a subclass"),
          .dcCls c, dictInsert cache path c)) ∧
    (∀ c cache2, documentClass env world base (.dcCls c) cache2 =
      (.ok (some c), .dcCls c, cache2)) := by
  refine ⟨?_, ?_, ?_, ?_⟩
  · simp [documentClass, importClass, hnocache, hmiss]
  · intro c ci hw he hcat
    simp [documentClass, importClass, hnocache, hw, he, hcat]
  · intro c ci hw he hcat
    simp [documentClass, importClass, hnocache, hw, he, hcat]
  · intro c cache2
    rfl

/-- Witness for C6 amended at a concrete input: an unresolvable path
fails without touching the field state or the cache, and after the class
becomes importable (with the right category) the same field resolves. -/
theorem c6_resolution_caching_amended_witness :
    (documentClass [("E", ⟨Cat.embDoc, [], []⟩)] [] .embDoc (.dcStr "pkg.E") [] =
      (.error (.impErr "No class named"), .dcStr "pkg.E", [])) ∧
    documentClass [("E", ⟨Cat.embDoc, [], []⟩)] [("pkg.E", "E")] .embDoc
        (.dcStr "pkg.E") [] =
      (.ok (some "E"), .dcCls "E", [("pkg.E", "E")]) := by
  have h := c6_resolution_caching_amended [("E", ⟨Cat.embDoc, [], []⟩)] []
    [("pkg.E", "E")] .embDoc "pkg.E" [] rfl rfl
  exact ⟨h.1, h.2.1 "E" ⟨Cat.embDoc, [], []⟩ rfl rfl rfl⟩


/-- A Python object reachable while chaining attributes from a field:
the field itself, a `CompoundFieldNameBuilder`, or a plain string (what a
field's own `name` / `mongo_name` / `s` attributes return). -/
inductive PyObj where
  | objField (f : FieldInfo)
  | objBuilder (obj : PyObj) (pre : String)
  | objStr (s : String)

/-- `CompoundField._document_class` as consulted by `__getattr__`
(resolved references; string resolution is the separate `documentClass`
state machine): an `EmbDocField` or `RefField` names its target class; a
`ListField` carries its item's class only when the item is an
`EmbDocField` (`fields.py` lines 510-514); other fields have none. -/
def docClassOf (f : FieldInfo) : Option String :=
  match f.kind with
  | .embK cls => some cls
  | .refK cls _ => some cls
  | .listK item _ _ =>
    match item.kind with
    | .embK cls => some cls
    | _ => none
  | _ => none

/-- Is a field a `CompoundField` (and so has a `__getattr__` at all)? -/
def isCompound (f : FieldInfo) : Bool :=
  match f.kind with
  | .embK _ => true
  | .refK _ _ => true
  | .listK _ _ _ => true
  | _ => false

/-- Truthiness of `getattr(obj, 'document_class', None)` as tested by
`CompoundFieldNameBuilder.__getattr__` (`fields.py` lines 375-380): a
field's stored class (plain fields have no such attribute, so the default
`None` applies), never truthy for a string, and for a nested builder the
recursive `__getattr__` result, which is truthy exactly when the wrapped
object's is. -/
def objDocClassTruthy : PyObj → Bool
  | .objField f => (docClassOf f).isSome
  | .objStr _ => false
  | .objBuilder o _ => objDocClassTruthy o

/-- Python attribute access on these objects.

On a field, *normal attribute lookup runs first*: `Field` instances
really do have attributes `name`, `mongo_name` and `s` (the property),
which therefore shadow `CompoundField.__getattr__` — this is the
shadowing that breaks the docstring's own `Comment.author.name.s`
example.  (The other instance attributes — `required`, `choices`,
`validators`, `field_type`, … — shadow the same way but return
non-string objects no claim touches; they are not modelled.)  Only when
normal lookup fails does `CompoundField.__getattr__` (lines 438-445) run:
a compound field with a resolved class looks the name up on the target
class — yielding the target's field descriptor — and wraps it in a
`CompoundFieldNameBuilder` with this field's `mongo_name` as prefix;
anything else raises `AttributeError`.

On a builder, `__slots__` leaves everything to `__getattr__`
(lines 375-383): no truthy `document_class` on the wrapped object means
`AttributeError`; otherwise the result is a new builder around
`getattr(self._obj, name)` with the same prefix.

On a string, every modelled name raises `AttributeError`. -/
def getattrPy (env : Env) : PyObj → String → Except PyExc PyObj
  | .objField f, attr =>
    if attr = "name" then .ok (.objStr f.name)
    else if attr = "mongo_name" then .ok (.objStr f.s)
    else if attr = "s" then .ok (.objStr f.s)
    else if isCompound f then
      match docClassOf f with
      | none => .error (.attrErr "has no attribute")
      | some cls =>
        match alookup env cls with
        | none => .error (.impErr "unknown document class")
        | some ci =>
          match alookup ci.fields attr with
          | some g => .ok (.objBuilder (.objField g) f.s)
          | none => .error (.attrErr "type object has no attribute")
    else .error (.attrErr "object has no attribute")
  | .objBuilder o pre, attr =>
    if objDocClassTruthy o then
      match getattrPy env o attr with
      | .ok o2 => .ok (.objBuilder o2 pre)
      | .error e => .error e
    else .error (.attrErr "has no attribute")
  | .objStr _, _ => .error (.attrErr "str object has no attribute")

/-- The `s` property, the terminal accessor: a field returns its
`mongo_name`; a builder returns `self._prefix + '.' + self._obj.s`
(line 385-387); a string has no `s` and raises `AttributeError`. -/
def sAccess : PyObj → Except PyExc String
  | .objField f => .ok f.s
  | .objBuilder o pre =>
    match sAccess o with
    | .ok s2 => .ok (pre ++ "." ++ s2)
    | .error e => .error e
  | .objStr _ => .error (.attrErr "str object has no attribute s")

/-- Chain attribute accesses and then request `.s`. -/
def renderPath (env : Env) : PyObj → List String → Except PyExc String
  | o, [] => sAccess o
  | o, attr :: rest =>
    match getattrPy env o attr with
    | .ok o2 => renderPath env o2 rest
    | .error e => .error e

/-- The schema graph for C7: `Comment.author : Author`,
`Author.name : Str`, `Author.address : Address`,
`Address.geo : Geo`, `Geo.lat : Str`. -/
def c7CityF : FieldInfo :=
  .mk "city" (some "city") true false none none (.strK none false none none)

def c7LatF : FieldInfo :=
  .mk "lat" (some "lat") true false none none (.strK none false none none)

def c7GeoF : FieldInfo :=
  .mk "geo" (some "geo") true false none none (.embK "Geo")

def c7NameF : FieldInfo :=
  .mk "name" (some "name") true false none none (.strK none false none none)

def c7AddressF : FieldInfo :=
  .mk "address" (some "address") true false none none (.embK "Address")

def c7AuthorF : FieldInfo :=
  .mk "author" (some "author") true false none none (.embK "Author")

def c7Env : Env :=
  [("Comment", ⟨.embDoc, [("author", c7AuthorF)], []⟩),
   ("Author", ⟨.embDoc, [("name", c7NameF), ("address", c7AddressF)], []⟩),
   ("Address", ⟨.embDoc, [("city", c7CityF), ("geo", c7GeoF)], []⟩),
   ("Geo", ⟨.embDoc, [("lat", c7LatF)], []⟩)]

/-- C7: evaluation of the path builder at the failing input and around
it.

* `Comment.author.address.city.s` renders `"author.address.city"` and the
  four-level `Comment.author.address.geo.lat.s` renders
  `"author.address.geo.lat"` — dotted joins of the `mongo_name`s along
  the chain, as the claim says;
* a non-existent attribute raises `AttributeError`;
* **but** `Comment.author.name.s` — the `CompoundField` docstring's own
  first example (`assert Comment.author.name.s == 'author.name'`,
  `fields.py` line 400) — raises `AttributeError` instead of rendering
  `"author.name"`: the target field is named `name`, normal attribute
  lookup finds the `Field.name` property (the string `"author"`) before
  `__getattr__` can run, and the terminal `.s` then fails on a plain
  string.  The code contradicts its own documentation, so the claim is
  recorded as a code bug at this input. -/
theorem c7_path_rendering_and_shadowing_bug :
    renderPath c7Env (.objField c7AuthorF) ["address", "city"] =
      .ok "author.address.city" ∧
    renderPath c7Env (.objField c7AuthorF) ["address", "geo", "lat"] =
      .ok "author.address.geo.lat" ∧
    renderPath c7Env (.objField c7AuthorF) ["address", "wrong"] =
      .error (.attrErr "type object has no attribute") ∧
    renderPath c7Env (.objField c7AuthorF) ["name"] =
      .error (.attrErr "str object has no attribute s") :=
  ⟨rfl, rfl, rfl, rfl⟩


/-- Python truthiness `bool(value)` (what `BoolField`'s `field_type`
conversion applies). -/
def pyTruthy : MValue → Bool
  | .vnone => false
  | .vbool b => b
  | .vint n => n ≠ 0
  | .vfloat q => q ≠ 0
  | .vstr s => s ≠ ""
  | .vdec c _ => c ≠ 0
  | .vdec128 _ _ => true
  | .voidv _ => true
  | .vdt _ => true
  | .vlist xs => !xs.isEmpty
  | .vdoc _ _ => true
  | .vson d => !d.isEmpty
  | .vfuncReturns _ => true
  | .vfuncRaisesTypeError => true
  | .vfuncRaisesOther => true

/-- Python `str(value)` for the scalar shapes the claims touch (other
reprs are not modelled; no claim evaluates them). -/
def pyStrOf : MValue → String
  | .vstr s => s
  | .vint n => toString n
  | .vbool true => "True"
  | .vbool false => "False"
  | .vnone => "None"
  | _ => "object repr not modelled"

/-- A pending `from_data` / `__init__` computation (one fuelled function
so that the mutual recursion of `EmbDocField.from_data` with
`BaseDocument.__init__` stays computable):

* `fdField f v` — `f.from_data(v)`;
* `fdList item xs` — the element-wise list comprehension of
  `ListField.from_data`;
* `fdInit cls kwargs` — `cls(**kwargs)`, producing `vdoc cls data`;
* `fdInitLoop` — the `for field_name, field in self.meta.fields.items()`
  loop of `BaseDocument.__init__` (`document.py` lines 219-226), with the
  `_data` built so far (encoded as a `vson`). -/
inductive FdTask where
  | fdField (f : FieldInfo) (v : MValue)
  | fdList (item : FieldInfo) (xs : List MValue)
  | fdInit (cls : String) (kwargs : List (String × MValue))
  | fdInitLoop (schema : Schema) (syns : List (String × String))
      (kwargs : List (String × MValue)) (acc : List (String × MValue))

/-- `from_data` conversions (`fields.py`) and document construction
(`document.py` lines 206-226), fuel-bounded (the fuel only limits
modelling depth; exhaustion is a distinguished model error, never reached
at the claims' inputs):

* base `Field.from_data` (lines 130-143): `None` passes through,
  otherwise `self.field_type(value)` with `(ValueError, TypeError)`
  caught and the value returned as is.  The conversions are modelled per
  field type for the value shapes the claims use (`int()` of numeric
  strings, `Decimal()`/`float()` of strings etc. are not modelled and
  fall back to "returned as is");
* `AnyField.from_data` / `DateTimeField.from_data` return the value as
  is (lines 201-202, 337-338);
* `ObjectIdField.from_data` (lines 347-363): `None`/`ObjectId` as is,
  else `ObjectId(value)` — a 24-character string converts, anything else
  is returned as is (`InvalidId`/`TypeError` caught);
* `EmbDocField.from_data` (lines 478-485): `None` or an instance of the
  target class as is, otherwise `document_class.from_data(value)` =
  `cls(**value)` for a mapping, with `TypeError`/`ValueError` caught and
  the value returned as is;
* `ListField.from_data` (lines 559-563): non-lists (and `None`) as is,
  else element-wise;
* `RefField.from_data` (lines 594-598): an instance of the target class
  as is, else `document_class._id.from_data(value)`;
* `BaseDocument.__init__`: for every schema field, the value is taken
  from the kwargs under the field's name, else under the field's synonym
  name, else the field's `default` property (`_Empty` meaning "skip the
  field"); a found value is assigned through the descriptor, i.e.
  `_data[name] = field.from_data(value)`.  Note the source applies the
  default *whether or not the field is required*. -/
def fromDataFn (env : Env) : Nat → FdTask → Except PyExc MValue
  | 0, _ => .error (.otherExc "model: recursion fuel exhausted")
  | fuel + 1, task =>
    match task with
    | .fdField f v =>
      match f.kind with
      | .anyK => .ok v
      | .dtK => .ok v
      | .strK _ _ _ _ =>
        match v with
        | .vnone => .ok .vnone
        | v => .ok (.vstr (pyStrOf v))
      | .boolK =>
        match v with
        | .vnone => .ok .vnone
        | v => .ok (.vbool (pyTruthy v))
      | .intK _ _ _ _ =>
        match v with
        | .vnone => .ok .vnone
        | .vint n => .ok (.vint n)
        | .vbool b => .ok (.vint (if b then 1 else 0))
        | .vfloat q => .ok (.vint (q.num / (q.den : Int)))
        | .vstr s =>
          match s.toInt? with
          | some n => .ok (.vint n)
          | none => .ok (.vstr s)
        | v => .ok v
      | .floatK _ _ _ _ =>
        match v with
        | .vnone => .ok .vnone
        | .vfloat q => .ok (.vfloat q)
        | .vint n => .ok (.vfloat (n : Rat))
        | .vbool b => .ok (.vfloat (if b then 1 else 0))
        | v => .ok v
      | .decK _ _ _ _ =>
        match v with
        | .vnone => .ok .vnone
        | .vdec c e => .ok (.vdec c e)
        | .vint n => .ok (.vdec n 0)
        | .vbool b => .ok (.vdec (if b then 1 else 0) 0)
        | v => .ok v
      | .oidK =>
        match v with
        | .vnone => .ok .vnone
        | .voidv h => .ok (.voidv h)
        | .vstr s => if s.length = 24 then .ok (.voidv s) else .ok (.vstr s)
        | v => .ok v
      | .embK cls =>
        match v with
        | .vson d =>
          match fromDataFn env fuel (.fdInit cls d) with
          | .ok inst => .ok inst
          | .error (.tyErr _) => .ok (.vson d)
          | .error e => .error e
        | v => .ok v
      | .listK item _ _ =>
        match v with
        | .vlist xs => fromDataFn env fuel (.fdList item xs)
        | v => .ok v
      | .refK cls idf =>
        match v with
        | .vdoc c d =>
          if c = cls then .ok (.vdoc c d)
          else fromDataFn env fuel (.fdField idf (.vdoc c d))
        | v => fromDataFn env fuel (.fdField idf v)
    | .fdList item xs =>
      match xs with
      | [] => .ok (.vlist [])
      | x :: rest =>
        match fromDataFn env fuel (.fdField item x) with
        | .ok v2 =>
          match fromDataFn env fuel (.fdList item rest) with
          | .ok (.vlist vs) => .ok (.vlist (v2 :: vs))
          | .ok _ => .error (.otherExc "model: unexpected result shape")
          | .error e => .error e
        | .error e => .error e
    | .fdInit cls kwargs =>
      match alookup env cls with
      | none => .error (.tyErr "unknown document class")
      | some ci =>
        match fromDataFn env fuel (.fdInitLoop ci.fields ci.syns kwargs []) with
        | .ok (.vson d) => .ok (.vdoc cls d)
        | .ok _ => .error (.otherExc "model: unexpected result shape")
        | .error e => .error e
    | .fdInitLoop schema syns kwargs acc =>
      match schema with
      | [] => .ok (.vson acc)
      | (n, f) :: rest =>
        let vo : Option MValue :=
          match alookup kwargs n with
          | some v => some v
          | none =>
            match alookup syns n with
            | some synName => alookup kwargs synName
            | none => none
        match vo with
        | some v =>
          match fromDataFn env fuel (.fdField f v) with
          | .ok v2 =>
            fromDataFn env fuel (.fdInitLoop rest syns kwargs (dictInsert acc n v2))
          | .error e => .error e
        | none =>
          match defaultProp f with
          | .ok none => fromDataFn env fuel (.fdInitLoop rest syns kwargs acc)
          | .ok (some v) =>
            match fromDataFn env fuel (.fdField f v) with
            | .ok v2 =>
              fromDataFn env fuel
                (.fdInitLoop rest syns kwargs (dictInsert acc n v2))
            | .error e => .error e
          | .error e => .error e

/-- The document class for the C8 failing input: one field declared
`required=False, default=13`. -/
def c8Field : FieldInfo :=
  .mk "value" (some "value") false false none (some (.vint 13))
    (.intK none none none none)

def c8Env : Env := [("Doc", ⟨.embDoc, [("value", c8Field)], []⟩)]

/-- C8: evaluation of the code at the failing input.  Constructing the
document with no arguments *applies the default of the non-required
field*: the resulting `_data` map contains `value = 13`.  The claim —
and the source's own documentation (`fields.py` lines 47-48:
".. note:: Default value is ignored if field is not required.") — say
the field should be left absent.  Neither `BaseDocument.__init__`
(`document.py` lines 219-226) nor the `Field.default` property consults
`required`, so the code contradicts its own documentation: a code bug. -/
theorem c8_default_not_ignored_for_non_required :
    fromDataFn c8Env 10 (.fdInit "Doc" []) =
      .ok (.vdoc "Doc" [("value", .vint 13)]) := rfl


def nodupStr : List String → Bool
  | [] => true
  | x :: xs => !(decide (x ∈ xs)) && nodupStr xs

/-- Well-formedness of a schema that real `meta.fields` maps satisfy:
field names are dict keys (unique), and the wire names are pairwise
distinct (otherwise two fields would fight over one SON slot). -/
def schemaWF (schema : Schema) : Bool :=
  nodupStr (schema.map Prod.fst) &&
    nodupStr (schema.map (fun nf => nf.2.s))

/-- Is the `_data` key sequence an ordered subsequence of the schema's
key sequence?  Every `_data` map the source builds satisfies this:
`__init__`, `populate_with_data` and `_set_mongo_data` all iterate
`meta.fields` in schema order and key `_data` by field names. -/
def isSchemaOrdered : List (String × MValue) → Schema → Bool
  | [], _ => true
  | _ :: _, [] => false
  | (k, v) :: ds, (n, _) :: ss =>
    if k = n then isSchemaOrdered ds ss else isSchemaOrdered ((k, v) :: ds) ss

mutual
/-- Conditions under which a stored value survives
`from_mongo (to_mongo v)` unchanged (the amended C1 conditions):

* a `DecimalField` value is `None` or a `Decimal` already in decimal128
  form — coefficient under `10 ^ 34`, exponent in `[-6176, 6111]`
  (`dec128Repr`): `to_mongo` keeps exactly these representations intact
  (`decFix_repr`); outside the form, a lossy Decimal raises
  `decimal.Inexact`/`decimal.Overflow` and an exactly representable one
  such as `Decimal(10 ^ 35)` comes back as a numerically equal but
  differently written Decimal, so representation-level identity fails
  either way;
* an `EmbDocField` value is `None` or a genuine instance of the declared
  target class, whose class exists, whose schema is well-formed, and
  whose `_data` is schema-ordered with recursively safe values;
* a `ListField` value is `None` or a list of recursively safe elements;
* a `RefField` value is *not* a document instance (an instance is
  collapsed to its `_id` by `to_mongo` — the C1 counterexample) and is
  safe for the target's `_id` field;
* values of the identity-converted kinds are unrestricted. -/
def rtField (env : Env) (f : FieldInfo) (v : MValue) : Bool :=
  match f with
  | .mk _ _ _ _ _ _ k =>
    match k with
    | .decK _ _ _ _ =>
      match v with
      | .vnone => true
      | .vdec c e => dec128Repr c e
      | _ => false
    | .embK cls =>
      match v with
      | .vnone => true
      | .vdoc c d =>
        (c = cls) &&
          (match alookup env c with
           | some ci =>
             schemaWF ci.fields && isSchemaOrdered d ci.fields &&
               rtDoc env ci.fields d
           | none => false)
      | _ => false
    | .listK item _ _ =>
      match v with
      | .vnone => true
      | .vlist xs => rtItems env item xs
      | _ => false
    | .refK _ idf =>
      match v with
      | .vdoc _ _ => false
      | v => rtField env idf v
    | _ => true
termination_by (sizeOf v, sizeOf f, 1)
decreasing_by
  all_goals (simp_wf
             solve
             | (apply Prod.Lex.left
                try simp
                try omega)
             | (apply Prod.Lex.right
                apply Prod.Lex.left
                try simp
                try omega))

def rtDoc (env : Env) (schema : Schema) (data : List (String × MValue)) :
    Bool :=
  match data with
  | [] => true
  | (k, v) :: rest =>
    (match alookup schema k with
     | some f => rtField env f v
     | none => false) && rtDoc env schema rest
termination_by (sizeOf data, sizeOf schema, 0)
decreasing_by
  all_goals (simp_wf
             apply Prod.Lex.left
             try simp
             try omega)

def rtItems (env : Env) (item : FieldInfo) (xs : List MValue) : Bool :=
  match xs with
  | [] => true
  | x :: rest => rtField env item x && rtItems env item rest
termination_by (sizeOf xs, sizeOf item, 0)
decreasing_by
  all_goals (simp_wf
             apply Prod.Lex.left
             try simp
             try omega)

end


theorem alookup_eq_none_of_not_mem {κ α : Type} [DecidableEq κ]
    {l : List (κ × α)} {k : κ} (h : k ∉ l.map Prod.fst) :
    alookup l k = none := by
  induction l with
  | nil => rfl
  | cons hd tl ih =>
    cases hd with
    | mk k' v' =>
      simp only [List.map_cons, List.mem_cons, not_or] at h
      simp only [alookup]
      rw [if_neg (fun he => h.1 he.symm)]
      exact ih h.2

theorem isSchemaOrdered_keys_subset :
    ∀ (data : List (String × MValue)) (schema : Schema),
      isSchemaOrdered data schema = true →
      ∀ k, k ∈ data.map Prod.fst → k ∈ schema.map Prod.fst := by
  intro data schema
  induction schema generalizing data with
  | nil =>
    intro h k hk
    cases data with
    | nil => simp at hk
    | cons hd tl => simp [isSchemaOrdered] at h
  | cons s rest ih =>
    intro h k hk
    cases s with
    | mk n f =>
      cases data with
      | nil => simp at hk
      | cons d ds =>
        cases d with
        | mk k2 v =>
          simp only [isSchemaOrdered] at h
          by_cases heq : k2 = n
          · rw [if_pos heq] at h
            simp only [List.map_cons, List.mem_cons] at hk ⊢
            rcases hk with rfl | hk
            · exact Or.inl heq
            · exact Or.inr (ih ds h k hk)
          · rw [if_neg heq] at h
            simp only [List.map_cons, List.mem_cons]
            exact Or.inr (ih ((k2, v) :: ds) h k hk)

theorem docToMongoAux_empty_data (env : Env) :
    ∀ (schema : Schema) (acc : List (String × MValue)),
      docToMongoAux env schema [] acc = .ok acc := by
  intro schema
  induction schema with
  | nil => intro acc; exact docToMongoAux_nil env [] acc
  | cons s rest ih =>
    intro acc
    cases s with
    | mk n f =>
      rw [docToMongoAux_cons]
      simp only [alookup]
      exact ih acc

theorem docFromMongoAux_empty_son (env : Env) :
    ∀ (schema : Schema) (acc : List (String × MValue)),
      docFromMongoAux env schema [] acc = .ok acc := by
  intro schema
  induction schema with
  | nil => intro acc; exact docFromMongoAux_nil env [] acc
  | cons s rest ih =>
    intro acc
    cases s with
    | mk n f =>
      rw [docFromMongoAux_cons]
      simp only [alookup]
      exact ih acc

theorem docToMongoAux_shift (env : Env) :
    ∀ (schema : Schema) (data acc : List (String × MValue)),
      (∀ nf, nf ∈ schema → (nf : String × FieldInfo).2.s ∉ acc.map Prod.fst) →
      (schema.map (fun nf => nf.2.s)).Nodup →
      docToMongoAux env schema data acc =
        (match docToMongoAux env schema data [] with
         | .ok son => .ok (acc ++ son)
         | .error e => .error e) := by
  intro schema
  induction schema with
  | nil =>
    intro data acc _ _
    rw [docToMongoAux_nil, docToMongoAux_nil]
    simp
  | cons s rest ih =>
    intro data acc hfresh hnodup
    cases s with
    | mk n f =>
      simp only [List.map_cons, List.nodup_cons] at hnodup
      rw [docToMongoAux_cons, docToMongoAux_cons]
      cases hlook : alookup data n with
      | some v =>
        simp only [hlook]
        cases hconv : fieldToMongo env f v with
        | ok w =>
          simp only [hconv]
          have hfs : f.s ∉ acc.map Prod.fst :=
            hfresh (n, f) (List.mem_cons_self _ _)
          rw [dictInsert_append acc f.s w hfs]
          have hfresh2 : ∀ nf, nf ∈ rest →
              (nf : String × FieldInfo).2.s ∉
                ((acc ++ [(f.s, w)]).map Prod.fst) := by
            intro nf hnf
            simp only [List.map_append, List.mem_append, List.map_cons,
              List.map_nil, List.mem_singleton, not_or]
            refine ⟨hfresh nf (List.mem_cons_of_mem _ hnf), ?_⟩
            intro he
            apply hnodup.1
            rw [← he]
            exact List.mem_map_of_mem _ hnf
          have hfresh3 : ∀ nf, nf ∈ rest →
              (nf : String × FieldInfo).2.s ∉
                ([(f.s, w)].map (Prod.fst)) := by
            intro nf hnf
            simp only [List.map_cons, List.map_nil, List.mem_singleton]
            intro he
            apply hnodup.1
            rw [← he]
            exact List.mem_map_of_mem _ hnf
          rw [ih data (acc ++ [(f.s, w)]) hfresh2 hnodup.2]
          rw [dictInsert_append [] f.s w (by simp)]
          simp only [List.nil_append]
          rw [ih data [(f.s, w)] hfresh3 hnodup.2]
          cases docToMongoAux env rest data [] with
          | ok son => simp
          | error e => simp
        | error e => simp only [hconv]
      | none =>
        simp only [hlook]
        exact ih data acc
          (fun nf hnf => hfresh nf (List.mem_cons_of_mem _ hnf)) hnodup.2

theorem docFromMongoAux_shift (env : Env) :
    ∀ (schema : Schema) (son acc : List (String × MValue)),
      (∀ nf, nf ∈ schema → (nf : String × FieldInfo).1 ∉ acc.map Prod.fst) →
      (schema.map Prod.fst).Nodup →
      docFromMongoAux env schema son acc =
        (match docFromMongoAux env schema son [] with
         | .ok d => .ok (acc ++ d)
         | .error e => .error e) := by
  intro schema
  induction schema with
  | nil =>
    intro son acc _ _
    rw [docFromMongoAux_nil, docFromMongoAux_nil]
    simp
  | cons s rest ih =>
    intro son acc hfresh hnodup
    cases s with
    | mk n f =>
      simp only [List.map_cons, List.nodup_cons] at hnodup
      rw [docFromMongoAux_cons, docFromMongoAux_cons]
      cases hlook : alookup son f.s with
      | some w =>
        simp only [hlook]
        cases hconv : fieldFromMongo env f w with
        | ok v =>
          simp only [hconv]
          have hn : n ∉ acc.map Prod.fst :=
            hfresh (n, f) (List.mem_cons_self _ _)
          rw [dictInsert_append acc n v hn]
          have hfresh2 : ∀ nf, nf ∈ rest →
              (nf : String × FieldInfo).1 ∉
                ((acc ++ [(n, v)]).map Prod.fst) := by
            intro nf hnf
            simp only [List.map_append, List.mem_append, List.map_cons,
              List.map_nil, List.mem_singleton, not_or]
            refine ⟨hfresh nf (List.mem_cons_of_mem _ hnf), ?_⟩
            intro he
            apply hnodup.1
            rw [← he]
            exact List.mem_map_of_mem _ hnf
          have hfresh3 : ∀ nf, nf ∈ rest →
              (nf : String × FieldInfo).1 ∉ ([(n, v)].map Prod.fst) := by
            intro nf hnf
            simp only [List.map_cons, List.map_nil, List.mem_singleton]
            intro he
            apply hnodup.1
            rw [← he]
            exact List.mem_map_of_mem _ hnf
          rw [ih son (acc ++ [(n, v)]) hfresh2 hnodup.2]
          rw [dictInsert_append [] n v (by simp)]
          simp only [List.nil_append]
          rw [ih son [(n, v)] hfresh3 hnodup.2]
          cases docFromMongoAux env rest son [] with
          | ok d => simp
          | error e => simp
        | error e => simp only [hconv]
      | none =>
        simp only [hlook]
        exact ih son acc
          (fun nf hnf => hfresh nf (List.mem_cons_of_mem _ hnf)) hnodup.2

theorem docFromMongoAux_skipHead (env : Env) :
    ∀ (schema : Schema) (son acc : List (String × MValue)) (k : String)
      (w : MValue),
      (∀ nf, nf ∈ schema → (nf : String × FieldInfo).2.s ≠ k) →
      docFromMongoAux env schema ((k, w) :: son) acc =
        docFromMongoAux env schema son acc := by
  intro schema
  induction schema with
  | nil =>
    intro son acc k w _
    rw [docFromMongoAux_nil, docFromMongoAux_nil]
  | cons s rest ih =>
    intro son acc k w hne
    cases s with
    | mk n f =>
      rw [docFromMongoAux_cons, docFromMongoAux_cons]
      have hfs : ¬ (k = f.s) := by
        intro he
        exact hne (n, f) (List.mem_cons_self _ _) he.symm
      simp only [alookup]
      rw [if_neg hfs]
      cases hlook : alookup son f.s with
      | some w2 =>
        simp only [hlook]
        cases hc : fieldFromMongo env f w2 with
        | ok v =>
          simp only [hc]
          exact ih son (dictInsert acc n v) k w (fun nf hnf => hne nf (List.mem_cons_of_mem _ hnf))
        | error e => simp only [hc]
      | none =>
        simp only [hlook]
        exact ih son acc k w (fun nf hnf => hne nf (List.mem_cons_of_mem _ hnf))


/-- The field kinds whose `to_mongo`/`from_mongo` is the inherited identity
`Field.to_mongo` / `Field.from_mongo` (`fields.py` lines 122-128). -/
def isIdKind : FieldKind → Bool
  | .anyK => true
  | .strK _ _ _ _ => true
  | .boolK => true
  | .intK _ _ _ _ => true
  | .floatK _ _ _ _ => true
  | .dtK => true
  | .oidK => true
  | _ => false

theorem fieldToMongo_id {env : Env} {nm : String} {mn : Option String}
    {rq an : Bool} {ch : Option (List MValue)} {dv : Option MValue}
    {k : FieldKind} {v : MValue} (h : isIdKind k = true) :
    fieldToMongo env (.mk nm mn rq an ch dv k) v = .ok v := by
  cases k <;> solve
    | rw [fieldToMongo.eq_def]
    | simp [isIdKind] at h

theorem fieldFromMongo_id {env : Env} {nm : String} {mn : Option String}
    {rq an : Bool} {ch : Option (List MValue)} {dv : Option MValue}
    {k : FieldKind} {v : MValue} (h : isIdKind k = true) :
    fieldFromMongo env (.mk nm mn rq an ch dv k) v = .ok v := by
  cases k <;> solve
    | rw [fieldFromMongo.eq_def]
    | simp [isIdKind] at h

theorem fieldToMongo_dec_none {env : Env} {nm : String} {mn : Option String}
    {rq an : Bool} {ch : Option (List MValue)} {dv : Option MValue}
    {g1 g2 g3 g4 : Option (Int × Int)} :
    fieldToMongo env (.mk nm mn rq an ch dv (.decK g1 g2 g3 g4)) .vnone =
      .ok .vnone := by
  rw [fieldToMongo.eq_def]

theorem decDigitsAux_le : ∀ (fuel n d : Nat), 1 ≤ d → n < 10 ^ d →
    decDigitsAux fuel n ≤ d := by
  intro fuel
  induction fuel with
  | zero =>
    intro n d hd _
    simpa [decDigitsAux] using hd
  | succ fuel ih =>
    intro n d hd h
    simp only [decDigitsAux]
    by_cases h10 : n < 10
    · rw [if_pos h10]
      exact hd
    · rw [if_neg h10]
      have hd2 : 2 ≤ d := by
        by_contra hlt
        have hd1 : d = 1 := by omega
        subst hd1
        simp at h
        omega
      have hdiv : n / 10 < 10 ^ (d - 1) := by
        apply Nat.div_lt_of_lt_mul
        have hpow : 10 ^ d = 10 ^ (d - 1) * 10 := by
          rw [← pow_succ]
          congr 1
          omega
        omega
      have := ih (n / 10) (d - 1) (by omega) hdiv
      omega

theorem decDigits_le {n d : Nat} (hd : 1 ≤ d) (h : n < 10 ^ d) :
    decDigits n ≤ d :=
  decDigitsAux_le n n d hd h

/-- A representation already inside the decimal128 format passes through
`create_decimal` untouched: with at most 34 digits and an in-range
exponent, `_fix` neither rounds, rescales, nor clamps. -/
theorem decFix_repr {c e : Int} (h : dec128Repr c e = true) :
    decFix c e = .ok (c, e) := by
  simp only [dec128Repr, Bool.and_eq_true, decide_eq_true_eq] at h
  obtain ⟨⟨hc, he1⟩, he2⟩ := h
  unfold decFix
  by_cases hc0 : c = 0
  · subst hc0
    rw [if_pos rfl]
    have hmm : min (max e (-6176)) 6111 = e := by omega
    rw [hmm]
  · rw [if_neg hc0]
    have hdg : (decDigits c.natAbs : Int) ≤ 34 := by
      exact_mod_cast decDigits_le (by omega) hc
    rw [if_neg (by omega), if_neg (by omega), if_neg (by omega)]

theorem fieldToMongo_dec_repr {env : Env} {nm : String} {mn : Option String}
    {rq an : Bool} {ch : Option (List MValue)} {dv : Option MValue}
    {g1 g2 g3 g4 : Option (Int × Int)} {c e : Int}
    (h : dec128Repr c e = true) :
    fieldToMongo env (.mk nm mn rq an ch dv (.decK g1 g2 g3 g4)) (.vdec c e) =
      .ok (.vdec128 c e) := by
  rw [fieldToMongo.eq_def]
  simp only [decFix_repr h]

theorem fieldFromMongo_dec_none {env : Env} {nm : String} {mn : Option String}
    {rq an : Bool} {ch : Option (List MValue)} {dv : Option MValue}
    {g1 g2 g3 g4 : Option (Int × Int)} :
    fieldFromMongo env (.mk nm mn rq an ch dv (.decK g1 g2 g3 g4)) .vnone =
      .ok .vnone := by
  rw [fieldFromMongo.eq_def]

theorem fieldFromMongo_dec128 {env : Env} {nm : String} {mn : Option String}
    {rq an : Bool} {ch : Option (List MValue)} {dv : Option MValue}
    {g1 g2 g3 g4 : Option (Int × Int)} {c e : Int} :
    fieldFromMongo env (.mk nm mn rq an ch dv (.decK g1 g2 g3 g4))
      (.vdec128 c e) = .ok (.vdec c e) := by
  rw [fieldFromMongo.eq_def]

theorem fieldToMongo_emb_none {env : Env} {nm : String} {mn : Option String}
    {rq an : Bool} {ch : Option (List MValue)} {dv : Option MValue}
    {cls : String} :
    fieldToMongo env (.mk nm mn rq an ch dv (.embK cls)) .vnone =
      .ok .vnone := by
  rw [fieldToMongo.eq_def]

theorem fieldFromMongo_emb_none {env : Env} {nm : String} {mn : Option String}
    {rq an : Bool} {ch : Option (List MValue)} {dv : Option MValue}
    {cls : String} :
    fieldFromMongo env (.mk nm mn rq an ch dv (.embK cls)) .vnone =
      .ok .vnone := by
  rw [fieldFromMongo.eq_def]

theorem fieldToMongo_emb_doc {env : Env} {nm : String} {mn : Option String}
    {rq an : Bool} {ch : Option (List MValue)} {dv : Option MValue}
    {cls c : String} {d : List (String × MValue)} {ci : ClassInfo}
    {son : List (String × MValue)}
    (hci : alookup env c = some ci)
    (hson : docToMongo env ci.fields d = .ok son) :
    fieldToMongo env (.mk nm mn rq an ch dv (.embK cls)) (.vdoc c d) =
      .ok (.vson son) := by
  rw [fieldToMongo.eq_def]
  simp only [hci, hson]

theorem fieldFromMongo_emb_son {env : Env} {nm : String} {mn : Option String}
    {rq an : Bool} {ch : Option (List MValue)} {dv : Option MValue}
    {cls : String} {son : List (String × MValue)} {ci : ClassInfo}
    {d : List (String × MValue)}
    (hci : alookup env cls = some ci)
    (hd : docFromMongo env ci.fields son = .ok d) :
    fieldFromMongo env (.mk nm mn rq an ch dv (.embK cls)) (.vson son) =
      .ok (.vdoc cls d) := by
  rw [fieldFromMongo.eq_def]
  simp only [hci, hd]

theorem fieldToMongo_list_none {env : Env} {nm : String} {mn : Option String}
    {rq an : Bool} {ch : Option (List MValue)} {dv : Option MValue}
    {item : FieldInfo} {lmin lmax : Option Nat} :
    fieldToMongo env (.mk nm mn rq an ch dv (.listK item lmin lmax)) .vnone =
      .ok .vnone := by
  rw [fieldToMongo.eq_def]

theorem fieldFromMongo_list_none {env : Env} {nm : String} {mn : Option String}
    {rq an : Bool} {ch : Option (List MValue)} {dv : Option MValue}
    {item : FieldInfo} {lmin lmax : Option Nat} :
    fieldFromMongo env (.mk nm mn rq an ch dv (.listK item lmin lmax)) .vnone =
      .ok .vnone := by
  rw [fieldFromMongo.eq_def]

theorem fieldToMongo_list_cons {env : Env} {nm : String} {mn : Option String}
    {rq an : Bool} {ch : Option (List MValue)} {dv : Option MValue}
    {item : FieldInfo} {lmin lmax : Option Nat} {xs ws : List MValue}
    (hws : itemsToMongo env item xs = .ok ws) :
    fieldToMongo env (.mk nm mn rq an ch dv (.listK item lmin lmax))
      (.vlist xs) = .ok (.vlist ws) := by
  rw [fieldToMongo.eq_def]
  simp only [hws]

theorem fieldFromMongo_list_cons {env : Env} {nm : String} {mn : Option String}
    {rq an : Bool} {ch : Option (List MValue)} {dv : Option MValue}
    {item : FieldInfo} {lmin lmax : Option Nat} {ws vs : List MValue}
    (hvs : itemsFromMongo env item ws = .ok vs) :
    fieldFromMongo env (.mk nm mn rq an ch dv (.listK item lmin lmax))
      (.vlist ws) = .ok (.vlist vs) := by
  rw [fieldFromMongo.eq_def]
  simp only [hvs]

theorem fieldToMongo_ref_nondoc {env : Env} {nm : String} {mn : Option String}
    {rq an : Bool} {ch : Option (List MValue)} {dv : Option MValue}
    {cls : String} {idf : FieldInfo} {v : MValue}
    (h : ∀ c d, v ≠ .vdoc c d) :
    fieldToMongo env (.mk nm mn rq an ch dv (.refK cls idf)) v =
      fieldToMongo env idf v := by
  rw [fieldToMongo.eq_def]
  cases v <;> first
    | rfl
    | exact absurd rfl (h _ _)

theorem fieldFromMongo_ref {env : Env} {nm : String} {mn : Option String}
    {rq an : Bool} {ch : Option (List MValue)} {dv : Option MValue}
    {cls : String} {idf : FieldInfo} {w : MValue} :
    fieldFromMongo env (.mk nm mn rq an ch dv (.refK cls idf)) w =
      fieldFromMongo env idf w := by
  rw [fieldFromMongo.eq_def]

theorem itemsToMongo_nilE {env : Env} {item : FieldInfo} :
    itemsToMongo env item [] = .ok [] := by
  rw [itemsToMongo.eq_def]

theorem itemsFromMongo_nilE {env : Env} {item : FieldInfo} :
    itemsFromMongo env item [] = .ok [] := by
  rw [itemsFromMongo.eq_def]

theorem itemsToMongo_consE {env : Env} {item : FieldInfo} {x : MValue}
    {rest : List MValue} {w : MValue} {ws : List MValue}
    (hw : fieldToMongo env item x = .ok w)
    (hws : itemsToMongo env item rest = .ok ws) :
    itemsToMongo env item (x :: rest) = .ok (w :: ws) := by
  rw [itemsToMongo.eq_def]
  simp only [hw, hws]

theorem itemsFromMongo_consE {env : Env} {item : FieldInfo} {w : MValue}
    {rest : List MValue} {v : MValue} {vs : List MValue}
    (hv : fieldFromMongo env item w = .ok v)
    (hvs : itemsFromMongo env item rest = .ok vs) :
    itemsFromMongo env item (w :: rest) = .ok (v :: vs) := by
  rw [itemsFromMongo.eq_def]
  simp only [hv, hvs]

theorem docToMongo_eq (env : Env) (schema : Schema)
    (data : List (String × MValue)) :
    docToMongo env schema data = docToMongoAux env schema data [] := by
  rw [docToMongo.eq_def]

theorem docFromMongo_eq (env : Env) (schema : Schema)
    (son : List (String × MValue)) :
    docFromMongo env schema son = docFromMongoAux env schema son [] := by
  rw [docFromMongo.eq_def]


theorem bandE {a b : Bool} (h : (a && b) = true) : a = true ∧ b = true := by
  simp only [Bool.and_eq_true] at h
  exact h

theorem rtField_id {env : Env} {nm : String} {mn : Option String}
    {rq an : Bool} {ch : Option (List MValue)} {dv : Option MValue}
    {k : FieldKind} {v : MValue} (h : isIdKind k = true) :
    rtField env (.mk nm mn rq an ch dv k) v = true := by
  cases k <;> solve
    | rw [rtField.eq_def]
    | simp [isIdKind] at h

theorem rtField_dec_inv {env : Env} {nm : String} {mn : Option String}
    {rq an : Bool} {ch : Option (List MValue)} {dv : Option MValue}
    {g1 g2 g3 g4 : Option (Int × Int)} {v : MValue}
    (h : rtField env (.mk nm mn rq an ch dv (.decK g1 g2 g3 g4)) v = true) :
    v = .vnone ∨ ∃ c e, v = .vdec c e ∧ dec128Repr c e = true := by
  rw [rtField.eq_def] at h
  cases v with
  | vnone => exact Or.inl rfl
  | vdec c e => exact Or.inr ⟨c, e, rfl, h⟩
  | vbool b => exact absurd h (by simp)
  | vint n => exact absurd h (by simp)
  | vfloat q => exact absurd h (by simp)
  | vstr s => exact absurd h (by simp)
  | vdec128 c e => exact absurd h (by simp)
  | voidv hx => exact absurd h (by simp)
  | vdt t => exact absurd h (by simp)
  | vlist xs => exact absurd h (by simp)
  | vdoc c d => exact absurd h (by simp)
  | vson d => exact absurd h (by simp)
  | vfuncReturns x => exact absurd h (by simp)
  | vfuncRaisesTypeError => exact absurd h (by simp)
  | vfuncRaisesOther => exact absurd h (by simp)

theorem rtField_emb_inv {env : Env} {nm : String} {mn : Option String}
    {rq an : Bool} {ch : Option (List MValue)} {dv : Option MValue}
    {cls : String} {v : MValue}
    (h : rtField env (.mk nm mn rq an ch dv (.embK cls)) v = true) :
    v = .vnone ∨ ∃ d ci, v = .vdoc cls d ∧ alookup env cls = some ci ∧
      schemaWF ci.fields = true ∧ isSchemaOrdered d ci.fields = true ∧
      rtDoc env ci.fields d = true := by
  rw [rtField.eq_def] at h
  cases v with
  | vnone => exact Or.inl rfl
  | vdoc c d =>
    have h' : (decide (c = cls) &&
        (match alookup env c with
         | some ci => schemaWF ci.fields && isSchemaOrdered d ci.fields &&
             rtDoc env ci.fields d
         | none => false)) = true := h
    have hc : c = cls := of_decide_eq_true (bandE h').1
    subst hc
    have h2 := (bandE h').2
    cases hci : alookup env c with
    | none => rw [hci] at h2; simp at h2
    | some ci =>
      rw [hci] at h2
      have h3 : (schemaWF ci.fields && isSchemaOrdered d ci.fields &&
          rtDoc env ci.fields d) = true := h2
      obtain ⟨h4, h5⟩ := bandE h3
      obtain ⟨h6, h7⟩ := bandE h4
      exact Or.inr ⟨d, ci, rfl, rfl, h6, h7, h5⟩
  | vbool b => exact absurd h (by simp)
  | vint n => exact absurd h (by simp)
  | vfloat q => exact absurd h (by simp)
  | vstr s => exact absurd h (by simp)
  | vdec c e => exact absurd h (by simp)
  | vdec128 c e => exact absurd h (by simp)
  | voidv hx => exact absurd h (by simp)
  | vdt t => exact absurd h (by simp)
  | vlist xs => exact absurd h (by simp)
  | vson d => exact absurd h (by simp)
  | vfuncReturns x => exact absurd h (by simp)
  | vfuncRaisesTypeError => exact absurd h (by simp)
  | vfuncRaisesOther => exact absurd h (by simp)

theorem rtField_list_inv {env : Env} {nm : String} {mn : Option String}
    {rq an : Bool} {ch : Option (List MValue)} {dv : Option MValue}
    {item : FieldInfo} {lmin lmax : Option Nat} {v : MValue}
    (h : rtField env (.mk nm mn rq an ch dv (.listK item lmin lmax)) v
      = true) :
    v = .vnone ∨ ∃ xs, v = .vlist xs ∧ rtItems env item xs = true := by
  rw [rtField.eq_def] at h
  cases v with
  | vnone => exact Or.inl rfl
  | vlist xs => exact Or.inr ⟨xs, rfl, h⟩
  | vbool b => exact absurd h (by simp)
  | vint n => exact absurd h (by simp)
  | vfloat q => exact absurd h (by simp)
  | vstr s => exact absurd h (by simp)
  | vdec c e => exact absurd h (by simp)
  | vdec128 c e => exact absurd h (by simp)
  | voidv hx => exact absurd h (by simp)
  | vdt t => exact absurd h (by simp)
  | vdoc c d => exact absurd h (by simp)
  | vson d => exact absurd h (by simp)
  | vfuncReturns x => exact absurd h (by simp)
  | vfuncRaisesTypeError => exact absurd h (by simp)
  | vfuncRaisesOther => exact absurd h (by simp)

theorem rtField_ref_inv {env : Env} {nm : String} {mn : Option String}
    {rq an : Bool} {ch : Option (List MValue)} {dv : Option MValue}
    {cls : String} {idf : FieldInfo} {v : MValue}
    (h : rtField env (.mk nm mn rq an ch dv (.refK cls idf)) v = true) :
    (∀ c d, v ≠ .vdoc c d) ∧ rtField env idf v = true := by
  rw [rtField.eq_def] at h
  cases v with
  | vdoc c d => exact absurd h (by simp)
  | vnone => exact ⟨fun c d hh => MValue.noConfusion hh, h⟩
  | vbool b => exact ⟨fun c d hh => MValue.noConfusion hh, h⟩
  | vint n => exact ⟨fun c d hh => MValue.noConfusion hh, h⟩
  | vfloat q => exact ⟨fun c d hh => MValue.noConfusion hh, h⟩
  | vstr s => exact ⟨fun c d hh => MValue.noConfusion hh, h⟩
  | vdec c e => exact ⟨fun c d hh => MValue.noConfusion hh, h⟩
  | vdec128 c e => exact ⟨fun c d hh => MValue.noConfusion hh, h⟩
  | voidv hx => exact ⟨fun c d hh => MValue.noConfusion hh, h⟩
  | vdt t => exact ⟨fun c d hh => MValue.noConfusion hh, h⟩
  | vlist xs => exact ⟨fun c d hh => MValue.noConfusion hh, h⟩
  | vson d => exact ⟨fun c d hh => MValue.noConfusion hh, h⟩
  | vfuncReturns x => exact ⟨fun c d hh => MValue.noConfusion hh, h⟩
  | vfuncRaisesTypeError => exact ⟨fun c d hh => MValue.noConfusion hh, h⟩
  | vfuncRaisesOther => exact ⟨fun c d hh => MValue.noConfusion hh, h⟩

theorem rtDoc_nilE {env : Env} {schema : Schema} :
    rtDoc env schema [] = true := by
  rw [rtDoc.eq_def]

theorem rtDoc_consE {env : Env} {schema : Schema} {k : String} {v : MValue}
    {rest : List (String × MValue)} :
    rtDoc env schema ((k, v) :: rest) =
      ((match alookup schema k with
        | some f => rtField env f v
        | none => false) && rtDoc env schema rest) := by
  rw [rtDoc.eq_def]

theorem rtDoc_cons_inv {env : Env} {schema : Schema} {k : String}
    {v : MValue} {rest : List (String × MValue)}
    (h : rtDoc env schema ((k, v) :: rest) = true) :
    (∃ f, alookup schema k = some f ∧ rtField env f v = true) ∧
      rtDoc env schema rest = true := by
  rw [rtDoc_consE] at h
  obtain ⟨h1, h2⟩ := bandE h
  refine ⟨?_, h2⟩
  cases hf : alookup schema k with
  | none => rw [hf] at h1; simp at h1
  | some f =>
    rw [hf] at h1
    exact ⟨f, rfl, h1⟩

theorem rtItems_cons_inv {env : Env} {item : FieldInfo} {x : MValue}
    {rest : List MValue}
    (h : rtItems env item (x :: rest) = true) :
    rtField env item x = true ∧ rtItems env item rest = true := by
  rw [rtItems.eq_def] at h
  exact bandE h

theorem rtDoc_head_irrelevant {env : Env} {n : String} {f : FieldInfo}
    {rest : Schema} :
    ∀ ds : List (String × MValue),
      (∀ k2 ∈ ds.map Prod.fst, k2 ≠ n) →
      rtDoc env ((n, f) :: rest) ds = rtDoc env rest ds := by
  intro ds
  induction ds with
  | nil =>
    intro _
    rw [rtDoc_nilE, rtDoc_nilE]
  | cons hd tl ih =>
    intro hne
    cases hd with
    | mk k v =>
      rw [rtDoc_consE, rtDoc_consE]
      have hk : ¬ (n = k) := fun he => hne k (by simp) he.symm
      simp only [alookup, if_neg hk]
      rw [ih (fun k2 hk2 => hne k2 (by simp [hk2]))]

theorem docToMongoAux_skipHeadData (env : Env) :
    ∀ (schema : Schema) (data acc : List (String × MValue)) (k : String)
      (v : MValue),
      (∀ nf, nf ∈ schema → (nf : String × FieldInfo).1 ≠ k) →
      docToMongoAux env schema ((k, v) :: data) acc =
        docToMongoAux env schema data acc := by
  intro schema
  induction schema with
  | nil =>
    intro data acc k v _
    rw [docToMongoAux_nil, docToMongoAux_nil]
  | cons s rest ih =>
    intro data acc k v hne
    cases s with
    | mk n f =>
      rw [docToMongoAux_cons, docToMongoAux_cons]
      have hk : ¬ (k = n) := by
        intro he
        exact hne (n, f) (List.mem_cons_self _ _) he.symm
      simp only [alookup]
      rw [if_neg hk]
      cases hlook : alookup data n with
      | some v2 =>
        simp only [hlook]
        cases hc : fieldToMongo env f v2 with
        | ok w =>
          simp only [hc]
          exact ih data (dictInsert acc f.s w) k v (fun nf hnf => hne nf (List.mem_cons_of_mem _ hnf))
        | error e => simp only [hc]
      | none =>
        simp only [hlook]
        exact ih data acc k v (fun nf hnf => hne nf (List.mem_cons_of_mem _ hnf))

theorem nodupStr_nodup : ∀ l : List String, nodupStr l = true → l.Nodup := by
  intro l
  induction l with
  | nil => intro _; exact List.nodup_nil
  | cons x xs ih =>
    intro h
    simp only [nodupStr, Bool.and_eq_true, Bool.not_eq_true',
      decide_eq_false_iff_not] at h
    exact List.nodup_cons.mpr ⟨h.1, ih h.2⟩

theorem schemaWF_cons_inv {n : String} {f : FieldInfo} {rest : Schema}
    (h : schemaWF ((n, f) :: rest) = true) :
    (n ∉ rest.map Prod.fst) ∧ (f.s ∉ rest.map (fun nf => nf.2.s)) ∧
      schemaWF rest = true := by
  simp only [schemaWF, List.map_cons, nodupStr, Bool.and_eq_true,
    Bool.not_eq_true', decide_eq_false_iff_not] at h
  obtain ⟨⟨h1, h2⟩, h3, h4⟩ := h
  exact ⟨h1, h3, by simp only [schemaWF, Bool.and_eq_true]; exact ⟨h2, h4⟩⟩

theorem schemaWF_nodups {schema : Schema} (h : schemaWF schema = true) :
    (schema.map Prod.fst).Nodup ∧
      (schema.map (fun nf => nf.2.s)).Nodup := by
  simp only [schemaWF, Bool.and_eq_true] at h
  exact ⟨nodupStr_nodup _ h.1, nodupStr_nodup _ h.2⟩


/-- Round-trip property of one field: `to_mongo` succeeds and `from_mongo`
restores the original value. -/
def rtFieldOk (env : Env) (f : FieldInfo) (v : MValue) : Prop :=
  ∃ w, fieldToMongo env f v = .ok w ∧ fieldFromMongo env f w = .ok v

/-- Round-trip property of a whole `_data` map: `to_mongo` succeeds,
`from_mongo` of the SON rebuilds the very same `_data` map, and the SON
uses only the schema's wire names. -/
def rtDocOk (env : Env) (schema : Schema)
    (data : List (String × MValue)) : Prop :=
  ∃ son, docToMongo env schema data = .ok son ∧
    docFromMongo env schema son = .ok data ∧
    ∀ key ∈ son.map Prod.fst, key ∈ schema.map (fun nf => nf.2.s)

/-- Round-trip property of a list of elements. -/
def rtItemsOk (env : Env) (item : FieldInfo) (xs : List MValue) : Prop :=
  ∃ ws, itemsToMongo env item xs = .ok ws ∧
    itemsFromMongo env item ws = .ok xs

/-- The round-trip induction: simultaneous strong induction on the value
size and the field size, mirroring the termination measure of the mutual
conversion functions. -/
theorem rt_main : ∀ a b : Nat,
    (∀ (env : Env) (f : FieldInfo) (v : MValue),
      sizeOf v = a → sizeOf f = b → rtField env f v = true →
      rtFieldOk env f v) ∧
    (∀ (env : Env) (schema : Schema) (data : List (String × MValue)),
      sizeOf data = a → sizeOf schema = b → schemaWF schema = true →
      isSchemaOrdered data schema = true → rtDoc env schema data = true →
      rtDocOk env schema data) ∧
    (∀ (env : Env) (item : FieldInfo) (xs : List MValue),
      sizeOf xs = a → sizeOf item = b → rtItems env item xs = true →
      rtItemsOk env item xs) := by
  intro a
  induction a using Nat.strong_induction_on with
  | _ a ihA =>
  intro b
  induction b using Nat.strong_induction_on with
  | _ b ihB =>
  refine ⟨?_, ?_, ?_⟩
  · -- fields
    intro env f v hv hf hrt
    subst hv; subst hf
    cases f with
    | mk nm mn rq an ch dv k =>
      cases k with
      | anyK => exact ⟨v, fieldToMongo_id rfl, fieldFromMongo_id rfl⟩
      | strK r bl l1 l2 =>
        exact ⟨v, fieldToMongo_id rfl, fieldFromMongo_id rfl⟩
      | boolK => exact ⟨v, fieldToMongo_id rfl, fieldFromMongo_id rfl⟩
      | intK g1 g2 g3 g4 =>
        exact ⟨v, fieldToMongo_id rfl, fieldFromMongo_id rfl⟩
      | floatK g1 g2 g3 g4 =>
        exact ⟨v, fieldToMongo_id rfl, fieldFromMongo_id rfl⟩
      | dtK => exact ⟨v, fieldToMongo_id rfl, fieldFromMongo_id rfl⟩
      | oidK => exact ⟨v, fieldToMongo_id rfl, fieldFromMongo_id rfl⟩
      | decK g1 g2 g3 g4 =>
        rcases rtField_dec_inv hrt with rfl | ⟨c, e, rfl, hre⟩
        · exact ⟨.vnone, fieldToMongo_dec_none, fieldFromMongo_dec_none⟩
        · exact ⟨.vdec128 c e, fieldToMongo_dec_repr hre,
            fieldFromMongo_dec128⟩
      | embK cls =>
        rcases rtField_emb_inv hrt with rfl | ⟨d, ci, rfl, hci, hwf, hord, hdoc⟩
        · exact ⟨.vnone, fieldToMongo_emb_none, fieldFromMongo_emb_none⟩
        · have hlt : sizeOf d < sizeOf (MValue.vdoc cls d) := by simp <;> omega
          obtain ⟨son, hto, hfrom, hkeys⟩ :=
            ((ihA (sizeOf d) hlt (sizeOf ci.fields)).2.1) env ci.fields d
              rfl rfl hwf hord hdoc
          exact ⟨.vson son, fieldToMongo_emb_doc hci hto,
            fieldFromMongo_emb_son hci hfrom⟩
      | listK item lmin lmax =>
        rcases rtField_list_inv hrt with rfl | ⟨xs, rfl, hxs⟩
        · exact ⟨.vnone, fieldToMongo_list_none, fieldFromMongo_list_none⟩
        · have hlt : sizeOf xs < sizeOf (MValue.vlist xs) := by simp <;> omega
          obtain ⟨ws, hto, hfrom⟩ :=
            ((ihA (sizeOf xs) hlt (sizeOf item)).2.2) env item xs rfl rfl hxs
          exact ⟨.vlist ws, fieldToMongo_list_cons hto,
            fieldFromMongo_list_cons hfrom⟩
      | refK cls idf =>
        obtain ⟨hnotdoc, hidf⟩ := rtField_ref_inv hrt
        have hlt : sizeOf idf <
            sizeOf (FieldInfo.mk nm mn rq an ch dv (.refK cls idf)) := by simp <;> omega
        obtain ⟨w, hto, hfrom⟩ :=
          ((ihB (sizeOf idf) hlt).1) env idf v rfl rfl hidf
        exact ⟨w, (fieldToMongo_ref_nondoc hnotdoc).trans hto,
          fieldFromMongo_ref.trans hfrom⟩
  · -- documents
    intro env schema data hd hs hwf hord hrt
    subst hd; subst hs
    cases schema with
    | nil =>
      cases data with
      | nil =>
        refine ⟨[], ?_, ?_, ?_⟩
        · rw [docToMongo_eq, docToMongoAux_nil]
        · rw [docFromMongo_eq, docFromMongoAux_nil]
        · intro key hk
          simp at hk
      | cons dh dt =>
        cases dh with
        | mk k v => simp [isSchemaOrdered] at hord
    | cons s rest =>
      obtain ⟨n, f⟩ := s
      obtain ⟨hnmem, hsmem, hwf'⟩ := schemaWF_cons_inv hwf
      obtain ⟨hnodupN, hnodupS⟩ := schemaWF_nodups hwf'
      cases data with
      | nil =>
        refine ⟨[], ?_, ?_, ?_⟩
        · rw [docToMongo_eq]
          exact docToMongoAux_empty_data env _ []
        · rw [docFromMongo_eq]
          exact docFromMongoAux_empty_son env _ []
        · intro key hk
          simp at hk
      | cons dh dt =>
        obtain ⟨k, v⟩ := dh
        by_cases hkn : k = n
        · rw [hkn] at hord hrt ihA ⊢
          simp only [isSchemaOrdered, if_pos rfl] at hord
          obtain ⟨⟨f', hlookf, hrtv⟩, hrtdt⟩ := rtDoc_cons_inv hrt
          simp only [alookup] at hlookf
          simp at hlookf
          subst hlookf
          have hdtkeys : ∀ k2 ∈ dt.map Prod.fst, k2 ≠ n := by
            intro k2 hk2 he
            apply hnmem
            rw [← he]
            exact isSchemaOrdered_keys_subset dt rest hord k2 hk2
          have hrtdt' : rtDoc env rest dt = true := by
            rw [← rtDoc_head_irrelevant dt hdtkeys]
            exact hrtdt
          have hvlt : sizeOf v <
              sizeOf (((n, v) :: dt) : List (String × MValue)) := by simp <;> omega
          obtain ⟨w, hto, hfrom⟩ :=
            (ihA (sizeOf v) hvlt (sizeOf f)).1 env f v rfl rfl hrtv
          have hdtlt : sizeOf dt <
              sizeOf (((n, v) :: dt) : List (String × MValue)) := by simp <;> omega
          obtain ⟨son', hto', hfrom', hkeys'⟩ :=
            (ihA (sizeOf dt) hdtlt (sizeOf rest)).2.1 env rest dt rfl rfl
              hwf' hord hrtdt'
          rw [docToMongo_eq] at hto'
          rw [docFromMongo_eq] at hfrom'
          have hrestne : ∀ nf, nf ∈ rest →
              (nf : String × FieldInfo).1 ≠ n := by
            intro nf hnf he
            apply hnmem
            rw [← he]
            exact List.mem_map_of_mem _ hnf
          have hrestsne : ∀ nf, nf ∈ rest →
              (nf : String × FieldInfo).2.s ≠ f.s := by
            intro nf hnf he
            apply hsmem
            rw [← he]
            exact List.mem_map_of_mem _ hnf
          refine ⟨(f.s, w) :: son', ?_, ?_, ?_⟩
          · rw [docToMongo_eq, docToMongoAux_cons]
            have hl : alookup ((n, v) :: dt) n = some v := by
              simp [alookup]
            simp only [hl, hto, dictInsert]
            rw [docToMongoAux_skipHeadData env rest dt [(f.s, w)] n v
                hrestne]
            have hfr : ∀ nf, nf ∈ rest → (nf : String × FieldInfo).2.s ∉
                (([(f.s, w)] : List (String × MValue)).map Prod.fst) := by
              intro nf hnf hmem
              simp only [List.map_cons, List.map_nil,
                List.mem_singleton] at hmem
              exact hrestsne nf hnf hmem
            rw [docToMongoAux_shift env rest dt [(f.s, w)] hfr hnodupS]
            simp only [hto', List.singleton_append]
          · rw [docFromMongo_eq, docFromMongoAux_cons]
            have hl2 : alookup ((f.s, w) :: son') f.s = some w := by
              simp [alookup]
            simp only [hl2, hfrom, dictInsert]
            rw [docFromMongoAux_skipHead env rest son' [(n, v)] f.s w
                hrestsne]
            have hfr2 : ∀ nf, nf ∈ rest → (nf : String × FieldInfo).1 ∉
                (([(n, v)] : List (String × MValue)).map Prod.fst) := by
              intro nf hnf hmem
              simp only [List.map_cons, List.map_nil,
                List.mem_singleton] at hmem
              exact hrestne nf hnf hmem
            rw [docFromMongoAux_shift env rest son' [(n, v)] hfr2 hnodupN]
            simp only [hfrom', List.singleton_append]
          · intro key hk
            simp only [List.map_cons, List.mem_cons] at hk ⊢
            rcases hk with rfl | hk
            · exact Or.inl rfl
            · exact Or.inr (hkeys' key hk)
        · simp only [isSchemaOrdered, if_neg hkn] at hord
          have hdatakeys : ∀ k2 ∈ (((k, v) :: dt) : List (String × MValue)).map Prod.fst, k2 ≠ n := by
            intro k2 hk2 he
            apply hnmem
            rw [← he]
            exact isSchemaOrdered_keys_subset ((k, v) :: dt) rest hord k2 hk2
          have hrt' : rtDoc env rest ((k, v) :: dt) = true := by
            rw [← rtDoc_head_irrelevant ((k, v) :: dt) hdatakeys]
            exact hrt
          have hrlt : sizeOf rest <
              sizeOf (((n, f) :: rest) : Schema) := by simp <;> omega
          obtain ⟨son, hto, hfrom, hkeys⟩ :=
            (ihB (sizeOf rest) hrlt).2.1 env rest ((k, v) :: dt) rfl rfl
              hwf' hord hrt'
          refine ⟨son, ?_, ?_, ?_⟩
          · rw [docToMongo_eq, docToMongoAux_cons]
            have hnone : alookup ((k, v) :: dt) n = none :=
              alookup_eq_none_of_not_mem (fun hmem => hdatakeys n hmem rfl)
            simp only [hnone]
            rw [docToMongo_eq] at hto
            exact hto
          · rw [docFromMongo_eq, docFromMongoAux_cons]
            have hfs_none : alookup son f.s = none :=
              alookup_eq_none_of_not_mem (fun hmem => hsmem (hkeys f.s hmem))
            simp only [hfs_none]
            rw [docFromMongo_eq] at hfrom
            exact hfrom
          · intro key hk
            simp only [List.map_cons, List.mem_cons]
            exact Or.inr (hkeys key hk)
  · -- list elements
    intro env item xs hx hi hrt
    subst hx; subst hi
    cases xs with
    | nil => exact ⟨[], itemsToMongo_nilE, itemsFromMongo_nilE⟩
    | cons x rest =>
      obtain ⟨hx1, hrest⟩ := rtItems_cons_inv hrt
      have h1 : sizeOf x < sizeOf (x :: rest) := by simp <;> omega
      have h2 : sizeOf rest < sizeOf (x :: rest) := by simp <;> omega
      obtain ⟨w, hto, hfrom⟩ :=
        (ihA (sizeOf x) h1 (sizeOf item)).1 env item x rfl rfl hx1
      obtain ⟨ws, hto', hfrom'⟩ :=
        (ihA (sizeOf rest) h2 (sizeOf item)).2.2 env item rest rfl rfl hrest
      exact ⟨w :: ws, itemsToMongo_consE hto hto',
        itemsFromMongo_consE hfrom hfrom'⟩


/-- The `_id` field synthesized for a `Document` subclass
(`document.py` line 131: `ObjectIdField(required=True)` named `_id`). -/
def c1IdF : FieldInfo := .mk "_id" (some "_id") true false none none .oidK

def c1Env : Env := [("User", ⟨.topDoc, [("_id", c1IdF)], []⟩)]

/-- `author = RefField('User')` after resolution. -/
def c1RefField : FieldInfo :=
  .mk "author" (some "author") true false none none (.refK "User" c1IdF)

/-- A genuine `User` instance with `_id` set. -/
def c1Inst : MValue :=
  .vdoc "User" [("_id", .voidv "507f1f77bcf86cd799439011")]

/-- C1 counterexample: the claimed law `from_mongo (to_mongo x) = x` for
every `x` accepted by the field's `validate` fails for `RefField`.  A
`User` instance is valid for `author = RefField('User')`
(`RefField.validate` accepts instances of the target class), but
`RefField.to_mongo` stores only `document_class._id.to_mongo(value._id)`
(`fields.py` lines 586-589) and `RefField.from_mongo` returns
`document_class._id.from_mongo(value)` (lines 591-592), so the round trip
returns the bare `ObjectId`, not the instance. -/
theorem c1_round_trip_counterexample :
    fieldValidate c1Env c1RefField c1Inst = .ok () ∧
    fieldToMongo c1Env c1RefField c1Inst =
      .ok (.voidv "507f1f77bcf86cd799439011") ∧
    fieldFromMongo c1Env c1RefField (.voidv "507f1f77bcf86cd799439011") =
      .ok (.voidv "507f1f77bcf86cd799439011") ∧
    (MValue.voidv "507f1f77bcf86cd799439011") ≠ c1Inst := by
  refine ⟨?_, ?_, ?_, ?_⟩
  · simp [fieldValidate, buildValidators, c1RefField, c1IdF, c1Inst, c1Env,
      FieldInfo.choices, FieldInfo.kind, FieldInfo.allowNone, runSteps,
      runStep, stepNone, stepType, typeOk, alookup, Option.getD]
  · simp [fieldToMongo, c1RefField, c1IdF, c1Inst, alookup, Option.getD]
  · simp [fieldFromMongo, c1RefField, c1IdF]
  · simp [c1Inst]

/-- C1 (amended): `wire→internal ∘ internal→wire` is the identity exactly
on `rtField`-safe values — `DecimalField` values must already be written
in decimal128 form (coefficient under `10 ^ 34`, exponent in
`[-6176, 6111]`), `EmbDocField` values must be genuine instances of the
declared class with a well-formed schema and schema-ordered `_data`, and
`RefField` values must not be document instances (an instance is
collapsed to its `_id`, `c1_round_trip_counterexample`).  Under those
conditions a whole document's `_data` map also survives
`Document.from_mongo(d.to_mongo())` unchanged.  Outside decimal128 form
the law fails in one of two ways (third conjunct): an exactly
representable Decimal such as `Decimal(10 ^ 35)` converts but returns as
the numerically equal, differently written `Decimal(10 ^ 33) * 10 ^ 2` —
identity of representation is lost while `==` is kept — and a lossy one
such as `Decimal(10 ^ 34 + 1)` (which still passes `validate`) makes
`to_mongo` raise `decimal.Inexact`. -/
theorem c1_round_trip_amended (env : Env) (f : FieldInfo) (v : MValue)
    (schema : Schema) (data : List (String × MValue)) (g : FieldInfo)
    (hf : rtField env f v = true)
    (hwf : schemaWF schema = true)
    (hord : isSchemaOrdered data schema = true)
    (hdoc : rtDoc env schema data = true)
    (hg : ∃ g1 g2 g3 g4, g.kind = FieldKind.decK g1 g2 g3 g4) :
    (∃ w, fieldToMongo env f v = .ok w ∧ fieldFromMongo env f w = .ok v) ∧
    (∃ son, docToMongo env schema data = .ok son ∧
      docFromMongo env schema son = .ok data) ∧
    (fieldToMongo env g (.vdec (10 ^ 35) 0) =
        .ok (.vdec128 (10 ^ 33) 2) ∧
      fieldFromMongo env g (.vdec128 (10 ^ 33) 2) =
        .ok (.vdec (10 ^ 33) 2) ∧
      fieldToMongo env g (.vdec (10 ^ 34 + 1) 0) =
        .error (.otherExc "decimal.Inexact")) := by
  refine ⟨?_, ?_, ?_⟩
  · exact (rt_main (sizeOf v) (sizeOf f)).1 env f v rfl rfl hf
  · obtain ⟨son, h1, h2, _⟩ :=
      (rt_main (sizeOf data) (sizeOf schema)).2.1 env schema data rfl rfl
        hwf hord hdoc
    exact ⟨son, h1, h2⟩
  · obtain ⟨g1, g2, g3, g4, hk⟩ := hg
    cases g with
    | mk nm mn rq an ch dv k =>
      simp only [FieldInfo.kind] at hk
      subst hk
      have hfix1 : decFix (10 ^ 35) 0 = .ok (10 ^ 33, 2) := by rfl
      have hfix2 : decFix (10 ^ 34 + 1) 0 =
          .error (.otherExc "decimal.Inexact") := by rfl
      refine ⟨?_, ?_, ?_⟩
      · rw [fieldToMongo.eq_def]
        simp only [hfix1]
      · exact fieldFromMongo_dec128
      · rw [fieldToMongo.eq_def]
        simp only [hfix2]

/-- `d = DecimalField(required=False)`. -/
def c1DecF : FieldInfo :=
  .mk "d" (some "d") false false none none (.decK none none none none)

def c1SchW : Schema :=
  [("city", .mk "city" (some "city") true false none none
    (.strK none false none none))]

def c1DataW : List (String × MValue) := [("city", .vstr "NY")]

theorem c1_round_trip_amended_witness :
    rtField c1Env c1DecF (.vdec 3 (-1)) = true ∧
    schemaWF c1SchW = true ∧
    isSchemaOrdered c1DataW c1SchW = true ∧
    rtDoc c1Env c1SchW c1DataW = true ∧
    (∃ g1 g2 g3 g4, c1DecF.kind = FieldKind.decK g1 g2 g3 g4) ∧
    ((∃ w, fieldToMongo c1Env c1DecF (.vdec 3 (-1)) = .ok w ∧
        fieldFromMongo c1Env c1DecF w = .ok (.vdec 3 (-1))) ∧
     (∃ son, docToMongo c1Env c1SchW c1DataW = .ok son ∧
        docFromMongo c1Env c1SchW son = .ok c1DataW) ∧
     (fieldToMongo c1Env c1DecF (.vdec (10 ^ 35) 0) =
        .ok (.vdec128 (10 ^ 33) 2) ∧
      fieldFromMongo c1Env c1DecF (.vdec128 (10 ^ 33) 2) =
        .ok (.vdec (10 ^ 33) 2) ∧
      fieldToMongo c1Env c1DecF (.vdec (10 ^ 34 + 1) 0) =
        .error (.otherExc "decimal.Inexact"))) := by
  have hrepr : dec128Repr 3 (-1) = true := by decide
  have h1 : rtField c1Env c1DecF (.vdec 3 (-1)) = true := by
    simp [rtField, c1DecF, hrepr]
  have h2 : schemaWF c1SchW = true := by decide
  have h3 : isSchemaOrdered c1DataW c1SchW = true := by decide
  have h4 : rtDoc c1Env c1SchW c1DataW = true := by
    simp [rtDoc, rtField, c1SchW, c1DataW, alookup]
  have h5 : ∃ g1 g2 g3 g4, c1DecF.kind = FieldKind.decK g1 g2 g3 g4 :=
    ⟨none, none, none, none, rfl⟩
  exact ⟨h1, h2, h3, h4, h5,
    c1_round_trip_amended c1Env c1DecF (.vdec 3 (-1)) c1SchW c1DataW c1DecF
      h1 h2 h3 h4 h5⟩

end AioMongodel
